import Mathlib

/-!
# HAProxy ingress controller: reconciler and configuration builder

A shallow embedding of `controller.go`:

* the store (`HAProxyController` with its namespace and configmap maps),
* the event loop `SyncData` (one `syncJob` per received event),
* the configuration builder `UpdateHAProxy`.

Go maps are association lists. A map is enumerated in list order, so every
list order stands for one enumeration order that Go may choose. Lookups return
the first binding of a key, stores replace that binding in place (or append a
new one), deletions drop every binding of the key.
-/

namespace KubernetesIngress

/-! ## Go maps -/

/-- A Go `map[string]V`: the bindings in enumeration order. -/
abbrev GoMap (V : Type) := List (String × V)

/-- The lookup `v, ok := m[key]`: `none` stands for `ok == false`. -/
def mapGet {V : Type} : GoMap V → String → Option V
  | [], _ => none
  | (k, v) :: m, key => if k = key then some v else mapGet m key

/-- The assignment `m[key] = val`. -/
def mapSet {V : Type} : GoMap V → String → V → GoMap V
  | [], key, val => [(key, val)]
  | (k, v) :: m, key, val =>
    if k = key then (k, val) :: m else (k, v) :: mapSet m key val

/-- The builtin `delete(m, key)`. -/
def mapDelete {V : Type} (m : GoMap V) (key : String) : GoMap V :=
  m.filter (fun e => !(e.1 == key))

/-- The keys of a map, in enumeration order. -/
def mapKeys {V : Type} (m : GoMap V) : List String := m.map Prod.fst

/-! ## Data model

The entity types are declared outside the files at hand; their fields are the
ones the controller assigns in `watchChanges` (lines 73-123) and
`NewNamespace` (lines 223-230). -/

/-- The Kubernetes `intstr.IntOrString` of an ingress backend port. -/
inductive IntOrString where
  | int (v : Int)
  | str (s : String)
deriving DecidableEq, Repr

/-- The method `IntOrString.String()`: the string itself, or the decimal
rendering of the number (`strconv.Itoa`). -/
def IntOrString.String : IntOrString → String
  | .int v => toString v
  | .str s => s

/-- A Kubernetes `corev1.ServicePort`. -/
structure ServicePort where
  Name : String
  Protocol : String
  Port : Int
  TargetPort : IntOrString
  NodePort : Int
deriving DecidableEq, Repr

/-- The controller's view of a pod (lines 98-105). -/
structure Pod where
  Name : String
  Namespace : String
  Labels : GoMap String
  IP : String
  Status : String
deriving DecidableEq, Repr

/-- The controller's view of a service (lines 84-93). -/
structure Service where
  Name : String
  Namespace : String
  Ports : List ServicePort
  Annotations : GoMap String
  Selector : GoMap String
deriving DecidableEq, Repr

/-- The `extensionsv1beta1.IngressBackend` of a path. -/
structure IngressBackend where
  ServiceName : String
  ServicePort : IntOrString
deriving DecidableEq, Repr

/-- One `extensionsv1beta1.HTTPIngressPath`. -/
structure HTTPIngressPath where
  Path : String
  Backend : IngressBackend
deriving DecidableEq, Repr

/-- The `extensionsv1beta1.HTTPIngressRuleValue`. -/
structure HTTPIngressRuleValue where
  Paths : List HTTPIngressPath
deriving DecidableEq, Repr

/-- One `extensionsv1beta1.IngressRule`. Its `HTTP` is a pointer: `none` is the
nil of a rule that names a host only. -/
structure IngressRule where
  Host : String
  HTTP : Option HTTPIngressRuleValue
deriving DecidableEq, Repr

/-- The paths that the path loop of line 251 ranges over: those of `rule.HTTP`.
A rule whose `HTTP` is nil has none (the loop is not reached then, see
`processRule`). -/
def IngressRule.paths (rule : IngressRule) : List HTTPIngressPath :=
  match rule.HTTP with
  | some http => http.Paths
  | none => []

/-- The controller's view of an ingress (lines 109-114). -/
structure Ingress where
  Name : String
  Namespace : String
  Annotations : GoMap String
  Rules : List IngressRule
deriving DecidableEq, Repr

/-- The controller's view of a namespace (lines 73-80 and 223-230). -/
structure Namespace where
  Name : String
  Watch : Bool
  Pods : GoMap Pod
  Services : GoMap Service
  Ingresses : GoMap Ingress
deriving DecidableEq, Repr

/-- The controller's view of the configmap (lines 120-123). -/
structure ConfigMap where
  Name : String
  Data : GoMap String
deriving DecidableEq, Repr

/-- The store part of `HAProxyController` (lines 18-22); the Kubernetes client
handle `k8s` plays no part in `SyncData` or `UpdateHAProxy`. -/
structure HAProxyController where
  Namespaces : GoMap Namespace
  ConfigMap : GoMap ConfigMap
deriving DecidableEq, Repr

/-- The phase constant `corev1.PodRunning`. -/
def PodRunning : String := "Running"

/-! ## Store access -/

/-- `NewNamespace` (lines 222-232). -/
def NewNamespace (name : String) : Namespace :=
  { Name := name
    Watch := name == "default"
    Pods := []
    Services := []
    Ingresses := [] }

/-- `GetNamespace` (lines 212-220): the namespace registered under `name`,
registering a new one first when there is none. Returns the updated controller
and the namespace that the returned pointer designates. -/
def GetNamespace (c : HAProxyController) (name : String) :
    HAProxyController × Namespace :=
  match mapGet c.Namespaces name with
  | some ns => (c, ns)
  | none =>
    let newNamespace := NewNamespace name
    ({ c with Namespaces := mapSet c.Namespaces name newNamespace }, newNamespace)

/-- A write through the pointer returned by `GetNamespace c name`: the
namespace registered under `name` becomes `ns`. -/
def putNamespace (c : HAProxyController) (name : String) (ns : Namespace) :
    HAProxyController :=
  { c with Namespaces := mapSet c.Namespaces name ns }

/-! ## The configuration builder -/

/-- Modelled from the spec: the helper `hasSelectors` is declared outside the
files at hand. Invariant (I3): every key/value in the service's selector is
present and equal in the pod's labels. -/
def hasSelectors (selector labels : GoMap String) : Bool :=
  selector.all (fun e => mapGet labels e.1 == some e.2)

/-- One `use_backend` directive written to the `useBackend` buffer
(lines 261-263). -/
structure UseBackend where
  backend : String
  host : String
  path : String
deriving DecidableEq, Repr

/-- One server line written to the `backends` buffer (lines 282-284): the
loop index, the pod address and the port. -/
structure ServerLine where
  index : Nat
  ip : String
  port : String
deriving DecidableEq, Repr

/-- One backend section: the header written at lines 274-277 and the server
lines written under it by the pod loop. -/
structure BackendSection where
  name : String
  servers : List ServerLine
deriving DecidableEq, Repr

/-- One write to the `backends` buffer: a backend section (lines 274-287) or
the newline of line 290. -/
inductive BackendsWrite where
  | sect (b : BackendSection)
  | newline
deriving DecidableEq, Repr

/-- The local state of `UpdateHAProxy`: the `acls`, `useBackend` and `backends`
buffers (as the sequence of writes made to each) and the set
`createdBackends`. The flag `panicked` is set when the run has ended in the nil
pointer dereference of line 251; nothing is written after that. -/
structure Buffers where
  acls : List String
  useBackend : List UseBackend
  backends : List BackendsWrite
  createdBackends : List String
  panicked : Bool
deriving DecidableEq, Repr

/-- The buffers at line 243. -/
def Buffers.empty : Buffers :=
  { acls := [], useBackend := [], backends := [], createdBackends := [],
    panicked := false }

/-- The backend sections of the `backends` buffer, in the order written. -/
def sections : List BackendsWrite → List BackendSection
  | [] => []
  | .sect b :: ws => b :: sections ws
  | .newline :: ws => sections ws

/-- The names on the `backend <name>` headers, in the order written. -/
def sectionNames (ws : List BackendsWrite) : List String :=
  (sections ws).map BackendSection.name

/-- The name `{ns}-{svc}-{port}` (lines 262 and 271). -/
def backendName (ns svc port : String) : String :=
  ns ++ "-" ++ svc ++ "-" ++ port

/-- The pod loop (lines 278-287), from loop index `index` on. -/
def serverLines (selector : GoMap String) (port : String) :
    GoMap Pod → Nat → List ServerLine
  | [], _ => []
  | (_, pod) :: pods, index =>
    if pod.Status = PodRunning ∧ hasSelectors selector pod.Labels = true then
      { index := index, ip := pod.IP, port := port } ::
        serverLines selector port pods (index + 1)
    else serverLines selector port pods index

/-- The body of the path loop (lines 252-290). -/
def processPath (ns : Namespace) (rule : IngressRule) (b : Buffers)
    (path : HTTPIngressPath) : Buffers :=
  match mapGet ns.Services path.Backend.ServiceName with
  | none => b
  | some service =>
    let port := path.Backend.ServicePort.String
    let b1 := { b with
      useBackend := b.useBackend ++
        [{ backend := backendName ns.Name path.Backend.ServiceName port
           host := rule.Host
           path := path.Path }] }
    let selector := service.Selector
    if selector.length = 0 then b1
    else
      let name := backendName ns.Name service.Name port
      let b2 :=
        if name ∈ b1.createdBackends then b1
        else { b1 with
          backends := b1.backends ++
            [.sect { name := name, servers := serverLines selector port ns.Pods 0 }]
          createdBackends := name :: b1.createdBackends }
      { b2 with backends := b2.backends ++ [.newline] }

/-- The body of the rule loop (lines 250-291): the ACL write, then the path
loop over `rule.HTTP.Paths`, which panics when `rule.HTTP` is nil. After a
panic no further rule is processed. -/
def processRule (ns : Namespace) (b : Buffers) (rule : IngressRule) : Buffers :=
  if b.panicked = true then b
  else
    let b1 := { b with acls := b.acls ++ [rule.Host] }
    match rule.HTTP with
    | none => { b1 with panicked := true }
    | some http => http.Paths.foldl (processPath ns rule) b1

/-- The body of the ingress loop (lines 249-292). -/
def processIngress (ns : Namespace) (b : Buffers) (ingress : Ingress) : Buffers :=
  ingress.Rules.foldl (processRule ns) b

/-- The body of the namespace loop (lines 245-293). -/
def processNamespace (b : Buffers) (ns : Namespace) : Buffers :=
  if ns.Watch = false then b
  else ns.Ingresses.foldl (fun b e => processIngress ns b e.2) b

/-- The loops of `UpdateHAProxy` (lines 242-294). -/
def buildBuffers (c : HAProxyController) : Buffers :=
  c.Namespaces.foldl (fun b e => processNamespace b e.2) Buffers.empty

/-- Modelled from the spec: the helper `WriteBufferedString` is declared
outside the files at hand; it writes its string arguments to the builder one
after the other. -/
def WriteBufferedString (buffer : String) (args : List String) : String :=
  args.foldl (fun acc s => acc ++ s) buffer

/-- The text of one ACL write (line 250). -/
def renderAcl (host : String) : String :=
  WriteBufferedString "" ["    acl host-", host, " var(txn.hdr_host) -i ", host]

/-- The text of one `use_backend` write (lines 261-263). -/
def renderUseBackend (u : UseBackend) : String :=
  WriteBufferedString ""
    ["    use_backend ", u.backend, " if host-", u.host,
     " \x7b var(txn.path) -m beg ", u.path, " \x7d\n"]

/-- The text of one server line (lines 282-284). -/
def renderServer (l : ServerLine) : String :=
  WriteBufferedString ""
    ["    server server000", toString l.index, " ", l.ip, ":", l.port,
     " weight 1 check port ", l.port, "\n"]

/-- The text of one write to the `backends` buffer. -/
def renderBackendsWrite : BackendsWrite → String
  | .sect b =>
    WriteBufferedString ""
      ["backend ", b.name, "\n", "    mode http\n", "    balance leastconn\n"] ++
      String.join (b.servers.map renderServer)
  | .newline => "\n"

/-- The document assembled at lines 243 and 295-297. The texts of `getGlobal()`
and `getDefault()`, declared outside the files at hand, are parameters. -/
def renderConfig (getGlobal getDefault : String) (b : Buffers) : String :=
  let frontend := WriteBufferedString "" ["frontend http\n", "    mode http\n    bind *:80\n"]
  WriteBufferedString ""
    [getGlobal, "\n\n", getDefault, "\n\n", frontend, "\n",
     String.join (b.acls.map renderAcl), "\n",
     String.join (b.useBackend.map renderUseBackend), "\n\n",
     String.join (b.backends.map renderBackendsWrite)]

/-- `UpdateHAProxy` (lines 236-297): the configuration document `cfg`, which
the function then writes to a temporary file and hands to `haproxy -c`; `none`
when the loops panic on a rule whose `HTTP` is nil, in which case no document
is assembled. -/
def UpdateHAProxy (getGlobal getDefault : String) (c : HAProxyController) :
    Option String :=
  let b := buildBuffers c
  if b.panicked = true then none else some (renderConfig getGlobal getDefault b)

/-- The document that `UpdateHAProxy` assembles from the buffers of its loops:
what it returns when the loops run to their end. -/
def document (getGlobal getDefault : String) (c : HAProxyController) : String :=
  renderConfig getGlobal getDefault (buildBuffers c)

/-! ## The event loop -/

/-- The Kubernetes `watch.EventType`. -/
inductive EventType where
  | Added
  | Modified
  | Deleted
  | Bookmark
  | Error
deriving DecidableEq, Repr

/-- A `SyncDataEvent` as `watchChanges` builds it (lines 81-129): the sync type
with the event type and the payload of that kind. -/
inductive SyncDataEvent where
  | COMMAND (eventType : EventType)
  | NAMESPACE (eventType : EventType) (payload : Namespace)
  | INGRESS (eventType : EventType) (payload : Ingress)
  | SERVICE (eventType : EventType) (payload : Service)
  | POD (eventType : EventType) (payload : Pod)
  | CONFIGMAP (eventType : EventType) (payload : ConfigMap)
deriving DecidableEq, Repr

/-- The state of the `SyncData` loop: the store, the local `hadChanges`, and
the documents that the calls of `UpdateHAProxy` have generated so far (oldest
first). -/
structure SyncState where
  c : HAProxyController
  hadChanges : Bool
  generated : List String
deriving DecidableEq, Repr

/-- The state at line 139, before the first event. -/
def SyncState.init : SyncState :=
  { c := { Namespaces := [], ConfigMap := [] }, hadChanges := false, generated := [] }

/-- One iteration of the `SyncData` loop (lines 140-208). `Except.error` is a
run-time panic (nil pointer dereference, in the loop body or inside
`UpdateHAProxy`) and carries the state reached when it happens. -/
def syncJob (getGlobal getDefault : String) (s : SyncState) :
    SyncDataEvent → Except SyncState SyncState
  | .COMMAND _ =>
    if s.hadChanges then
      match UpdateHAProxy getGlobal getDefault s.c with
      | some cfg => .ok { s with generated := s.generated ++ [cfg], hadChanges := false }
      | none => .error s
    else .ok s
  | .NAMESPACE .Added payload =>
    let (c, _) := GetNamespace s.c payload.Name
    .ok { s with c := c, hadChanges := true }
  | .NAMESPACE _ _ => .ok s
  | .INGRESS .Added payload =>
    let (c, ns) := GetNamespace s.c payload.Namespace
    let ns := { ns with Ingresses := mapSet ns.Ingresses payload.Name payload }
    .ok { s with c := putNamespace c payload.Namespace ns, hadChanges := true }
  | .INGRESS _ _ => .ok s
  | .SERVICE .Added payload =>
    let (c, ns) := GetNamespace s.c payload.Namespace
    let ns := { ns with Services := mapSet ns.Services payload.Name payload }
    .ok { s with c := putNamespace c payload.Namespace ns, hadChanges := true }
  | .SERVICE _ _ => .ok s
  | .POD .Modified payload =>
    let (c, ns) := GetNamespace s.c payload.Namespace
    let oldPod := mapGet ns.Pods payload.Name
    let ns := { ns with Pods := mapSet ns.Pods payload.Name payload }
    let c := putNamespace c payload.Namespace ns
    match oldPod with
    | none => .error { s with c := c }
    | some _ => .ok { s with c := c, hadChanges := true }
  | .POD .Added payload =>
    let (c, ns) := GetNamespace s.c payload.Namespace
    let ns := { ns with Pods := mapSet ns.Pods payload.Name payload }
    .ok { s with c := putNamespace c payload.Namespace ns, hadChanges := true }
  | .POD .Deleted payload =>
    let (c, ns) := GetNamespace s.c payload.Namespace
    let c :=
      match mapGet ns.Pods payload.Name with
      | some _ =>
        putNamespace c payload.Namespace { ns with Pods := mapDelete ns.Pods payload.Name }
      | none => c
    match UpdateHAProxy getGlobal getDefault c with
    | some cfg => .ok { s with c := c, generated := s.generated ++ [cfg] }
    | none => .error { s with c := c }
  | .POD _ _ => .ok s
  | .CONFIGMAP .Added payload =>
    .ok { s with
      c := { s.c with ConfigMap := mapSet s.c.ConfigMap payload.Name payload }
      hadChanges := true }
  | .CONFIGMAP _ _ => .ok s

/-- The loop `for job := range jobChan` (line 139) over the events received,
from state `s` on; a panic ends it. -/
def runJobs (getGlobal getDefault : String) :
    SyncState → List SyncDataEvent → Except SyncState SyncState
  | s, [] => .ok s
  | s, job :: jobs =>
    match syncJob getGlobal getDefault s job with
    | .ok s1 => runJobs getGlobal getDefault s1 jobs
    | .error s1 => .error s1

/-- The state that a run has reached, whether it has processed all its events
or has panicked. -/
def reached : Except SyncState SyncState → SyncState
  | .ok s => s
  | .error s => s

/-- `SyncData` (lines 135-210) on the events received over `jobChan`. -/
def SyncData (getGlobal getDefault : String) (jobChan : List SyncDataEvent) :
    Except SyncState SyncState :=
  runJobs getGlobal getDefault SyncState.init jobChan

/-! ## The builder's loops as one sequence of visits -/

/-- One step of the nested loops of `UpdateHAProxy`: entering a rule (the ACL
write of line 250), dereferencing a nil `rule.HTTP` (line 251), or running the
path loop body on one path. -/
inductive Visit where
  | rule (ns : Namespace) (rule : IngressRule)
  | nilHTTP (ns : Namespace) (rule : IngressRule)
  | path (ns : Namespace) (rule : IngressRule) (path : HTTPIngressPath)
deriving DecidableEq, Repr

/-- The steps made for one rule. -/
def visitsOfRule (ns : Namespace) (rule : IngressRule) : List Visit :=
  .rule ns rule ::
    match rule.HTTP with
    | none => [.nilHTTP ns rule]
    | some http => http.Paths.map (.path ns rule)

/-- The steps made for one ingress. -/
def visitsOfIngress (ns : Namespace) (ingress : Ingress) : List Visit :=
  ingress.Rules.flatMap (visitsOfRule ns)

/-- The steps made for one namespace. -/
def visitsOfNamespace (ns : Namespace) : List Visit :=
  if ns.Watch = false then []
  else ns.Ingresses.flatMap (fun e => visitsOfIngress ns e.2)

/-- The steps made for a store, in order. -/
def visits (c : HAProxyController) : List Visit :=
  c.Namespaces.flatMap (fun e => visitsOfNamespace e.2)

/-- The effect of one step on the buffers; after a panic no step is made. -/
def applyVisit (b : Buffers) (v : Visit) : Buffers :=
  if b.panicked = true then b
  else
    match v with
    | .rule _ rule => { b with acls := b.acls ++ [rule.Host] }
    | .nilHTTP _ _ => { b with panicked := true }
    | .path ns rule path => processPath ns rule b path

/-! ## Vocabulary of the claims -/

/-- The builder reads path `path` of rule `rule` in the watched namespace `ns`
of store `c`, and the path's service name resolves to `svc`. -/
def Referenced (c : HAProxyController) (ns : Namespace) (rule : IngressRule)
    (path : HTTPIngressPath) (svc : Service) : Prop :=
  (∃ nk, (nk, ns) ∈ c.Namespaces) ∧ ns.Watch = true ∧
  (∃ ik ingress, (ik, ingress) ∈ ns.Ingresses ∧ rule ∈ ingress.Rules) ∧
  path ∈ rule.paths ∧
  mapGet ns.Services path.Backend.ServiceName = some svc

/-- The `use_backend` directive written for a path (lines 261-263). -/
def useBackendOf (ns : Namespace) (rule : IngressRule) (path : HTTPIngressPath) :
    UseBackend :=
  { backend := backendName ns.Name path.Backend.ServiceName path.Backend.ServicePort.String
    host := rule.Host
    path := path.Path }

/-- Every service of the store is registered under its own name, as `SyncData`
registers it (line 167). -/
def ServicesKeyed (c : HAProxyController) : Prop :=
  ∀ e ∈ c.Namespaces, ∀ f ∈ e.2.Services, f.2.Name = f.1

/-- Every `use_backend` directive is matched by exactly one backend section of
the same name. -/
def UseBackendMatched (b : Buffers) : Prop :=
  ∀ u ∈ b.useBackend, (sectionNames b.backends).count u.backend = 1

/-- A store with one watched namespace, a service without selector and an
ingress path to that service. -/
def storeNoSelector : HAProxyController :=
  { Namespaces :=
      [("default",
        { Name := "default"
          Watch := true
          Pods := []
          Services :=
            [("web", { Name := "web", Namespace := "default", Ports := [],
                       Annotations := [], Selector := [] })]
          Ingresses :=
            [("site",
              { Name := "site", Namespace := "default", Annotations := [],
                Rules :=
                  [{ Host := "foo.bar"
                     HTTP := some { Paths :=
                       [{ Path := "/"
                          Backend := { ServiceName := "web", ServicePort := .int 80 } }] } }] })] })]
    ConfigMap := [] }

/-- The service `web` of scenario 1. -/
def scenarioService : Service :=
  { Name := "web", Namespace := "default", Ports := [], Annotations := [],
    Selector := [("app", "web")] }

/-- The pod `web-a` of scenario 1. -/
def scenarioPodA : Pod :=
  { Name := "web-a", Namespace := "default", Labels := [("app", "web")],
    IP := "10.0.0.1", Status := "Running" }

/-- The pod `web-b` of scenario 1. -/
def scenarioPodB : Pod :=
  { Name := "web-b", Namespace := "default", Labels := [("app", "web")],
    IP := "10.0.0.2", Status := "Running" }

/-- The path `/` to `web:80` of scenario 1. -/
def scenarioPath : HTTPIngressPath :=
  { Path := "/", Backend := { ServiceName := "web", ServicePort := .int 80 } }

/-- The rule for host `foo.bar` of scenario 1. -/
def scenarioRule : IngressRule :=
  { Host := "foo.bar", HTTP := some { Paths := [scenarioPath] } }

/-- The ingress of scenario 1. -/
def scenarioIngress : Ingress :=
  { Name := "site", Namespace := "default", Annotations := [], Rules := [scenarioRule] }

/-- The namespace `default` of scenario 1: service `web` with selector
`app=web`, two running pods, and the ingress. -/
def scenarioNamespace : Namespace :=
  { Name := "default"
    Watch := true
    Pods := [("web-a", scenarioPodA), ("web-b", scenarioPodB)]
    Services := [("web", scenarioService)]
    Ingresses := [("site", scenarioIngress)] }

/-- The store of the spec's scenario 1. -/
def storeScenario : HAProxyController :=
  { Namespaces := [("default", scenarioNamespace)], ConfigMap := [] }

/-- The server lines of section `sec` are those of the running pods of `ns`
that match the selector of `svc`, at port `port`: each line has such a pod, and
each such pod has a line. -/
def SectionServesPods (sec : BackendSection) (ns : Namespace) (svc : Service)
    (port : String) : Prop :=
  (∀ l ∈ sec.servers, ∃ k pod, (k, pod) ∈ ns.Pods ∧ pod.Status = PodRunning ∧
      (∀ e ∈ svc.Selector, mapGet pod.Labels e.1 = some e.2) ∧
      l.ip = pod.IP ∧ l.port = port) ∧
  (∀ k pod, (k, pod) ∈ ns.Pods → pod.Status = PodRunning →
      (∀ e ∈ svc.Selector, mapGet pod.Labels e.1 = some e.2) →
      ∃ l ∈ sec.servers, l.ip = pod.IP ∧ l.port = port)

/-- For each (namespace, service, port) referenced by a `use_backend` whose
service resolves with a non-empty selector, the backend section of that name
serves the running, selector-matching pods of the namespace. -/
def ServersMatchPods (c : HAProxyController) : Prop :=
  ∀ ns rule path svc, Referenced c ns rule path svc → svc.Selector ≠ [] →
    ∀ sec ∈ sections (buildBuffers c).backends,
      sec.name = (useBackendOf ns rule path).backend →
      SectionServesPods sec ns svc path.Backend.ServicePort.String

/-- Service `a-b`, selecting the pods labelled `app=x`. -/
def clashServiceAB : Service :=
  { Name := "a-b", Namespace := "default", Ports := [], Annotations := [],
    Selector := [("app", "x")] }

/-- Service `a`, selecting the pods labelled `app=y`. -/
def clashServiceA : Service :=
  { Name := "a", Namespace := "default", Ports := [], Annotations := [],
    Selector := [("app", "y")] }

/-- A running pod labelled `app=y`. -/
def clashPod : Pod :=
  { Name := "p", Namespace := "default", Labels := [("app", "y")], IP := "10.0.0.9",
    Status := "Running" }

/-- The path `/x`, to service `a-b` at port number 2. -/
def clashPathAB : HTTPIngressPath :=
  { Path := "/x", Backend := { ServiceName := "a-b", ServicePort := .int 2 } }

/-- The path `/y`, to service `a` at the port named `b-2`. -/
def clashPathA : HTTPIngressPath :=
  { Path := "/y", Backend := { ServiceName := "a", ServicePort := .str "b-2" } }

/-- A rule with both paths; both name the backend `default-a-b-2`. -/
def clashRule : IngressRule :=
  { Host := "foo.bar", HTTP := some { Paths := [clashPathAB, clashPathA] } }

/-- The ingress holding `clashRule`. -/
def clashIngress : Ingress :=
  { Name := "site", Namespace := "default", Annotations := [], Rules := [clashRule] }

/-- The namespace `default` with the two services, the pod and the ingress. -/
def clashNamespace : Namespace :=
  { Name := "default"
    Watch := true
    Pods := [("p", clashPod)]
    Services := [("a-b", clashServiceAB), ("a", clashServiceA)]
    Ingresses := [("site", clashIngress)] }

/-- A store in which two (service, port) pairs of one namespace have the same
backend name. -/
def storeNameClash : HAProxyController :=
  { Namespaces := [("default", clashNamespace)], ConfigMap := [] }

/-- The store `c` without its unwatched namespaces. -/
def watchedOnly (c : HAProxyController) : HAProxyController :=
  { c with Namespaces := c.Namespaces.filter (fun e => e.2.Watch) }

/-- The namespace `ns` without the path occurrences that `drop` marks. -/
def dropPathsNamespace (drop : Namespace → Ingress → IngressRule → HTTPIngressPath → Bool)
    (ns : Namespace) : Namespace :=
  { ns with
    Ingresses := ns.Ingresses.map (fun f =>
      (f.1, { f.2 with
        Rules := f.2.Rules.map (fun r =>
          { r with
            HTTP := r.HTTP.map (fun http =>
              { Paths := http.Paths.filter (fun p => !drop ns f.2 r p) }) }) })) }

/-- The store `c` without the path occurrences that `drop` marks; everything
else is left as it is. -/
def dropPaths (drop : Namespace → Ingress → IngressRule → HTTPIngressPath → Bool)
    (c : HAProxyController) : HAProxyController :=
  { c with Namespaces := c.Namespaces.map (fun e => (e.1, dropPathsNamespace drop e.2)) }

/-- The store of the spec's scenario 3: as `storeScenario`, with a second path
`/api` to the service `api`, which the store does not hold. -/
def storeMissingService : HAProxyController :=
  { Namespaces :=
      [("default",
        { Name := "default"
          Watch := true
          Pods :=
            [("web-a", { Name := "web-a", Namespace := "default", Labels := [("app", "web")],
                         IP := "10.0.0.1", Status := "Running" })]
          Services :=
            [("web", { Name := "web", Namespace := "default", Ports := [],
                       Annotations := [], Selector := [("app", "web")] })]
          Ingresses :=
            [("site",
              { Name := "site", Namespace := "default", Annotations := [],
                Rules :=
                  [{ Host := "foo.bar"
                     HTTP := some { Paths :=
                       [{ Path := "/api"
                          Backend := { ServiceName := "api", ServicePort := .int 80 } },
                        { Path := "/"
                          Backend := { ServiceName := "web", ServicePort := .int 80 } }] } }] })] })]
    ConfigMap := [] }

/-- Marks the paths to the service `api`. -/
def dropApi (_ : Namespace) (_ : Ingress) (_ : IngressRule) (p : HTTPIngressPath) : Bool :=
  p.Backend.ServiceName == "api"

/-- The pod registered under (`namespace`, `name`), if any. -/
def getPod (c : HAProxyController) (nsName name : String) : Option Pod :=
  (mapGet c.Namespaces nsName).bind (fun ns => mapGet ns.Pods name)

/-- The service registered under (`namespace`, `name`), if any. -/
def getService (c : HAProxyController) (nsName name : String) : Option Service :=
  (mapGet c.Namespaces nsName).bind (fun ns => mapGet ns.Services name)

/-- The ingress registered under (`namespace`, `name`), if any. -/
def getIngress (c : HAProxyController) (nsName name : String) : Option Ingress :=
  (mapGet c.Namespaces nsName).bind (fun ns => mapGet ns.Ingresses name)

/-- The pod `q` has namespace `nsName` and name `name`. -/
def podKeyIs (nsName name : String) (q : Pod) : Bool :=
  q.Namespace == nsName && q.Name == name

/-- A MODIFY event with service `svc` registers `svc` under its namespace and
name and sets `hadChanges`. -/
def ServiceModifyUpserts (getGlobal getDefault : String) (s : SyncState) (svc : Service) :
    Prop :=
  ∃ s1, syncJob getGlobal getDefault s (.SERVICE .Modified svc) = .ok s1 ∧
    getService s1.c svc.Namespace svc.Name = some svc ∧ s1.hadChanges = true

/-- A DELETE event with service `svc` leaves no service registered under its
namespace and name and sets `hadChanges`. -/
def ServiceDeleteRemoves (getGlobal getDefault : String) (s : SyncState) (svc : Service) :
    Prop :=
  ∃ s1, syncJob getGlobal getDefault s (.SERVICE .Deleted svc) = .ok s1 ∧
    getService s1.c svc.Namespace svc.Name = none ∧ s1.hadChanges = true

/-- The state after the service `web` was added and a tick has passed: the
service is registered and `hadChanges` is false. -/
def stateServiceSynced : SyncState :=
  { c :=
      { Namespaces :=
          [("default", { NewNamespace "default" with Services := [("web", scenarioService)] })]
        ConfigMap := [] }
    hadChanges := false
    generated :=
      [document "" ""
        { Namespaces :=
            [("default", { NewNamespace "default" with Services := [("web", scenarioService)] })]
          ConfigMap := [] }] }

/-- A state holding the store of scenario 1, with no change pending. -/
def stateScenario : SyncState :=
  { c := storeScenario, hadChanges := false, generated := [] }

/-- The loop invariant behind (I2): the headers written so far carry pairwise
different names, and these names are exactly the members of
`createdBackends`. -/
def HeadersTracked (b : Buffers) : Prop :=
  (sectionNames b.backends).Nodup ∧
  ∀ n, n ∈ sectionNames b.backends ↔ n ∈ b.createdBackends

/-- The binding `e` of the namespace map is keyed as `SyncData` keys it: the
namespace is stored under its `Name`, and each pod, service and ingress of it
carries that name in its `Namespace` field and is stored under its own
`Name`. -/
def NamespaceKeyed (e : String × Namespace) : Prop :=
  e.2.Name = e.1 ∧
  (∀ f ∈ e.2.Pods, f.2.Namespace = e.2.Name ∧ f.2.Name = f.1) ∧
  (∀ f ∈ e.2.Services, f.2.Namespace = e.2.Name ∧ f.2.Name = f.1) ∧
  (∀ f ∈ e.2.Ingresses, f.2.Namespace = e.2.Name ∧ f.2.Name = f.1)

/-- Every binding of the namespace map is keyed consistently. -/
def KeysConsistent (c : HAProxyController) : Prop :=
  ∀ e ∈ c.Namespaces, NamespaceKeyed e

/-- Every namespace of the store is watched exactly when its name is
`default`. -/
def WatchIsDefault (c : HAProxyController) : Prop :=
  ∀ e ∈ c.Namespaces, (e.2.Watch = true ↔ e.2.Name = "default")

/-- The invariant of one binding of the namespace map: consistent keys and the
default watch policy. -/
def EntryInv (e : String × Namespace) : Prop :=
  NamespaceKeyed e ∧ (e.2.Watch = true ↔ e.2.Name = "default")

/-- The invariant of the store: `EntryInv` on every namespace binding. -/
def StoreInv (c : HAProxyController) : Prop :=
  ∀ e ∈ c.Namespaces, EntryInv e

/-- The buffers `b` and `b1` agree on everything but the `useBackend` buffer:
same ACL writes, same writes to `backends`, same `createdBackends`. -/
def SameBackends (b b1 : Buffers) : Prop :=
  b.acls = b1.acls ∧ b.backends = b1.backends ∧ b.createdBackends = b1.createdBackends ∧
  b.panicked = b1.panicked

/-- Marks every path. -/
def dropAll (_ : Namespace) (_ : Ingress) (_ : IngressRule) (_ : HTTPIngressPath) : Bool :=
  true

/-- The namespaces `ns` and `ns1` have the same contents: same name, same watch
flag, and the same pods, services and ingresses, in any enumeration order. -/
def SameNamespace (ns ns1 : Namespace) : Prop :=
  ns.Name = ns1.Name ∧ ns.Watch = ns1.Watch ∧ ns.Pods.Perm ns1.Pods ∧
  ns.Services.Perm ns1.Services ∧ ns.Ingresses.Perm ns1.Ingresses

/-- The stores `c` and `c1` have the same contents: the same namespaces with the
same contents and the same configmaps, in any enumeration order. -/
def SameStore (c c1 : HAProxyController) : Prop :=
  (∃ l, c.Namespaces.Perm l ∧
    List.Forall₂ (fun e e1 => e.1 = e1.1 ∧ SameNamespace e.2 e1.2) l c1.Namespaces) ∧
  c.ConfigMap.Perm c1.ConfigMap

/-- Stores with the same contents have the same document, whatever the
enumeration order of their maps. -/
def EnumerationIndependent (getGlobal getDefault : String) : Prop :=
  ∀ c c1, SameStore c c1 →
    UpdateHAProxy getGlobal getDefault c = UpdateHAProxy getGlobal getDefault c1

/-- The store of scenario 1 with its two pods enumerated in the other order. -/
def storeScenarioSwapped : HAProxyController :=
  { Namespaces :=
      [("default",
        { scenarioNamespace with Pods := [("web-b", scenarioPodB), ("web-a", scenarioPodA)] })]
    ConfigMap := [] }

/-- The namespace bindings `e` and `e1` differ at most in the enumeration order
of their pods. -/
def PodsReorderedEntry (e e1 : String × Namespace) : Prop :=
  e.1 = e1.1 ∧ e.2.Name = e1.2.Name ∧ e.2.Watch = e1.2.Watch ∧
  e.2.Services = e1.2.Services ∧ e.2.Ingresses = e1.2.Ingresses ∧
  e.2.Pods.Perm e1.2.Pods

/-- The stores `c` and `c1` differ at most in the enumeration order of the pods
of their namespaces. -/
def PodsReordered (c c1 : HAProxyController) : Prop :=
  List.Forall₂ PodsReorderedEntry c.Namespaces c1.Namespaces ∧ c.ConfigMap = c1.ConfigMap

/-- The address `<pod-ip>:<port>` of a server line, as the pair of its parts. -/
def ServerLine.address (l : ServerLine) : String × String := (l.ip, l.port)

/-- Two writes to the `backends` buffer agree up to the order of the server
lines: both are the newline, or both are sections of the same name with the
same addresses in some order. -/
def BackendsAgree : BackendsWrite → BackendsWrite → Prop
  | .sect s, .sect s1 =>
    s.name = s1.name ∧
      (s.servers.map ServerLine.address).Perm (s1.servers.map ServerLine.address)
  | .newline, .newline => True
  | _, _ => False

/-- Two buffers agree up to the order of the server lines. -/
def BuffersAgree (b b1 : Buffers) : Prop :=
  b.acls = b1.acls ∧ b.useBackend = b1.useBackend ∧
  b.createdBackends = b1.createdBackends ∧ b.panicked = b1.panicked ∧
  List.Forall₂ BackendsAgree b.backends b1.backends

/-! ## The annotation handlers of the frontend (`annotations.go`) -/

/-- The handler types of the package `ingress` that `Frontend` instantiates;
the three-, two- and four-key families come from one factory each. -/
inductive annotations.Handler where
  | BlackList
  | WhiteList
  | SrcIPHdr
  | ReqSetHost
  | ReqPathRewrite
  | ReqSetHdr
  | ResSetHdr
  | HTTPSRedirect
  | HostRedirect
  | ReqRateLimit
  | ReqAuth
  | ReqCapture
  | ResSetCORS
deriving DecidableEq, Repr

/-- An `Annotation` of the list that `Frontend` returns: the handler and the
name it was constructed with (the value of `GetName`). -/
structure annotations.Annotation where
  name : String
  handler : annotations.Handler
deriving DecidableEq, Repr

/-- `Frontend` (lines 62-98 of `annotations.go`): the handlers in the order of
the returned slice. The arguments `i`, `r` and `m` are handed to the
constructors and have no part in the order. -/
def annotations.Frontend : List annotations.Annotation :=
  [ ⟨"blacklist", .BlackList⟩,
    ⟨"whitelist", .WhiteList⟩,
    ⟨"src-ip-header", .SrcIPHdr⟩,
    ⟨"set-host", .ReqSetHost⟩,
    ⟨"path-rewrite", .ReqPathRewrite⟩,
    ⟨"request-set-header", .ReqSetHdr⟩,
    ⟨"response-set-header", .ResSetHdr⟩,
    ⟨"ssl-redirect", .HTTPSRedirect⟩,
    ⟨"ssl-redirect-port", .HTTPSRedirect⟩,
    ⟨"ssl-redirect-code", .HTTPSRedirect⟩,
    ⟨"request-redirect", .HostRedirect⟩,
    ⟨"request-redirect-code", .HostRedirect⟩,
    ⟨"rate-limit-requests", .ReqRateLimit⟩,
    ⟨"rate-limit-period", .ReqRateLimit⟩,
    ⟨"rate-limit-size", .ReqRateLimit⟩,
    ⟨"rate-limit-status-code", .ReqRateLimit⟩,
    ⟨"auth-type", .ReqAuth⟩,
    ⟨"auth-realm", .ReqAuth⟩,
    ⟨"auth-secret", .ReqAuth⟩,
    ⟨"request-capture", .ReqCapture⟩,
    ⟨"request-capture-len", .ReqCapture⟩,
    ⟨"cors-allow-origin", .ResSetCORS⟩,
    ⟨"cors-allow-method", .ResSetCORS⟩,
    ⟨"cors-allow-headers", .ResSetCORS⟩,
    ⟨"cors-max-age", .ResSetCORS⟩ ]

/-- The names of the handlers of `Frontend`, in order. -/
def annotations.frontendNames : List String :=
  annotations.Frontend.map annotations.Annotation.name

/-- The handler named `a` comes before the handler named `b` in `names`. -/
def annotations.Before (names : List String) (a b : String) : Prop :=
  a ∈ names ∧ b ∈ names ∧ names.indexOf a < names.indexOf b

/-- Every handler of the family `as` comes before every handler of the family
`bs`. -/
def annotations.AllBefore (names as bs : List String) : Prop :=
  ∀ a ∈ as, ∀ b ∈ bs, annotations.Before names a b

/-- The deny/allow family. -/
def annotations.denyAllow : List String := ["blacklist", "whitelist"]

/-- The rewrite family. -/
def annotations.rewrite : List String := ["set-host", "path-rewrite"]

/-- The auth family. -/
def annotations.auth : List String := ["auth-type", "auth-realm", "auth-secret"]

/-- The redirect family. -/
def annotations.redirect : List String :=
  ["ssl-redirect", "ssl-redirect-port", "ssl-redirect-code", "request-redirect",
   "request-redirect-code"]

/-- The capture family. -/
def annotations.capture : List String := ["request-capture", "request-capture-len"]

/-- The order deny/allow, rewrite, auth, redirect, capture. -/
def annotations.AuthBeforeRedirect (names : List String) : Prop :=
  annotations.AllBefore names annotations.denyAllow annotations.rewrite ∧
  annotations.AllBefore names annotations.rewrite annotations.auth ∧
  annotations.AllBefore names annotations.auth annotations.redirect ∧
  annotations.AllBefore names annotations.redirect annotations.capture

/-- The order deny/allow, rewrite, redirect, auth, capture. -/
def annotations.RedirectBeforeAuth (names : List String) : Prop :=
  annotations.AllBefore names annotations.denyAllow annotations.rewrite ∧
  annotations.AllBefore names annotations.rewrite annotations.redirect ∧
  annotations.AllBefore names annotations.redirect annotations.auth ∧
  annotations.AllBefore names annotations.auth annotations.capture

/-! ## Lines and server names of the document -/

/-- The lines of a text: the pieces between its newline characters, the
current piece being `cur`. -/
def splitLinesAux : List Char → List Char → List String
  | [], cur => [String.mk cur]
  | c :: cs, cur =>
    if c = Char.ofNat 10 then String.mk cur :: splitLinesAux cs []
    else splitLinesAux cs (cur ++ [c])

/-- The document split at newlines. -/
def splitLines (doc : String) : List String :=
  splitLinesAux doc.data []

/-- The name of the server with loop index `index`: the tail `server000` of the
literal of line 283, followed by `strconv.Itoa(index)`. -/
def serverName (index : Nat) : String :=
  "server000" ++ toString index

/-- The store of scenario 1 with a second rule, for host `x.y`, in its
ingress. -/
def storeTwoRules : HAProxyController :=
  { Namespaces :=
      [("default",
        { scenarioNamespace with
          Ingresses :=
            [("site",
              { scenarioIngress with
                Rules := [scenarioRule, { Host := "x.y", HTTP := some { Paths := [scenarioPath] } }] })] })]
    ConfigMap := [] }

/-- Eleven running pods `web-0` to `web-10` labelled `app=web`. -/
def elevenPods : GoMap Pod :=
  (List.range 11).map (fun i =>
    ("web-" ++ toString i,
      { Name := "web-" ++ toString i, Namespace := "default", Labels := [("app", "web")],
        IP := "10.0.0." ++ toString i, Status := "Running" }))

/-- The store of scenario 1 with eleven pods behind the service `web`. -/
def storeElevenPods : HAProxyController :=
  { Namespaces := [("default", { scenarioNamespace with Pods := elevenPods })]
    ConfigMap := [] }

/-! ## The handler of `path-rewrite` (`reqPathRewrite.go`) -/

/-- Go's `unicode.IsSpace`: the Latin-1 spaces `\t`, `\n`, `\v`, `\f`, `\r`,
space, U+0085 and U+00A0, and the other characters of the Unicode property
White_Space. -/
def unicode.IsSpace (c : Char) : Bool :=
  let n := c.toNat
  (9 ≤ n && n ≤ 13) || n == 32 || n == 0x85 || n == 0xA0 || n == 0x1680 ||
  (0x2000 ≤ n && n ≤ 0x200A) || n == 0x2028 || n == 0x2029 || n == 0x202F ||
  n == 0x205F || n == 0x3000

/-- The scan of `strings.Fields`: `cur` is the field being read. -/
def strings.fieldsAux : List Char → List Char → List String
  | [], cur => if cur = [] then [] else [String.mk cur]
  | c :: cs, cur =>
    if unicode.IsSpace c = true then
      if cur = [] then strings.fieldsAux cs [] else String.mk cur :: strings.fieldsAux cs []
    else strings.fieldsAux cs (cur ++ [c])

/-- Go's `strings.Fields`: the maximal runs of characters that are not white
space, in order. -/
def strings.Fields (s : String) : List String :=
  strings.fieldsAux s.data []

/-- Go's `strings.TrimSpace`: `s` without its leading and trailing white
space. -/
def strings.TrimSpace (s : String) : String :=
  String.mk ((s.data.dropWhile unicode.IsSpace).reverse.dropWhile unicode.IsSpace).reverse

/-- The rule `rules.ReqPathRewrite`. -/
structure rules.ReqPathRewrite where
  PathMatch : String
  PathFmt : String
deriving DecidableEq, Repr

/-- A rule of the frontend: a path rewrite, or a rule of one of the other
types of the package `rules`, which this handler does not build. -/
inductive rules.Rule where
  | ReqPathRewrite (rule : rules.ReqPathRewrite)
  | Other (text : String)
deriving DecidableEq, Repr

/-- The list `rules.Rules` of the frontend. -/
abbrev rules.Rules := List rules.Rule

/-- Modelled from the spec: the method `Rules.Add` is declared outside the files
at hand. The Rules collection of a frontend is append-only and is emitted in
insertion order: `Add` puts the rule at the end. -/
def rules.Rules.Add (r : rules.Rules) (rule : rules.Rule) : rules.Rules :=
  r ++ [rule]

/-- The handler `ingress.ReqPathRewrite` (lines 12-15); the rules it points to
are passed to `Process` and returned by it. -/
structure ingress.ReqPathRewrite where
  name : String
deriving DecidableEq, Repr

/-- The method `GetName` (lines 21-23). -/
def ingress.ReqPathRewrite.GetName (a : ingress.ReqPathRewrite) : String :=
  a.name

/-- The error of line 46. -/
def ingress.pathRewriteError (input : String) : String :=
  "incorrect value '" ++ input ++ "', path-rewrite takes 1 or 2 params "

/-- `ReqPathRewrite.Process` (lines 25-49): the rules afterwards and the error
returned (`none` for nil). The lookup `common.GetValue`, declared outside the
files at hand, is a parameter. -/
def ingress.ReqPathRewrite.Process (GetValue : String → List (GoMap String) → String)
    (a : ingress.ReqPathRewrite) (r : rules.Rules) (annotations : List (GoMap String)) :
    rules.Rules × Option String :=
  let input := GetValue a.GetName annotations
  if input = "" then (r, none)
  else
    match strings.Fields (strings.TrimSpace input) with
    | [p0] => (r.Add (.ReqPathRewrite { PathMatch := "(.*)", PathFmt := p0 }), none)
    | [p0, p1] => (r.Add (.ReqPathRewrite { PathMatch := p0, PathFmt := p1 }), none)
    | _ => (r, some (ingress.pathRewriteError input))

/-- A lookup that returns `/foo /bar` under `path-rewrite` and nothing else. -/
def sampleGetValue (name : String) (_ : List (GoMap String)) : String :=
  if name = "path-rewrite" then "/foo /bar" else ""

/-! ## The handler of `check-interval` (`checkInter.go`) -/

/-- The `models.DefaultServer` of a backend: the check interval `Inter` (a
`*int64`, `none` for nil) and, in `rest`, its other fields. -/
structure models.DefaultServer (α : Type) where
  Inter : Option Int
  rest : α

/-- The `models.Backend`: its `DefaultServer`, which `Process` dereferences
unconditionally (lines 27 and 34), and, in `rest`, its other fields. -/
structure models.Backend (α β : Type) where
  DefaultServer : models.DefaultServer α
  rest : β

/-- The handler `service.CheckInter` (lines 11-14); the backend it points to is
passed to `Process` and returned by it. -/
structure service.CheckInter where
  name : String
deriving DecidableEq, Repr

/-- The method `GetName` (lines 20-22). -/
def service.CheckInter.GetName (a : service.CheckInter) : String :=
  a.name

/-- `CheckInter.Process` (lines 24-36): the backend afterwards and the error
returned (`none` for nil). The lookup `common.GetValue` and the parser
`utils.ParseTime`, declared outside the files at hand, are parameters;
`ParseTime` returns a `*int64` or an error. -/
def service.CheckInter.Process {α β : Type}
    (GetValue : String → List (GoMap String) → String)
    (ParseTime : String → Except String (Option Int))
    (a : service.CheckInter) (backend : models.Backend α β)
    (annotations : List (GoMap String)) : models.Backend α β × Option String :=
  let input := GetValue a.GetName annotations
  if input = "" then
    ({ backend with DefaultServer := { backend.DefaultServer with Inter := none } }, none)
  else
    match ParseTime input with
    | .error err => (backend, some err)
    | .ok value =>
      ({ backend with DefaultServer := { backend.DefaultServer with Inter := value } }, none)

/-- A lookup that returns `5s` under `check-interval` and nothing else. -/
def sampleInterValue (name : String) (_ : List (GoMap String)) : String :=
  if name = "check-interval" then "5s" else ""

/-- A parser that knows the duration `5s`, as 5000 milliseconds. -/
def sampleParseTime (input : String) : Except String (Option Int) :=
  if input = "5s" then .ok (some 5000) else .error "invalid duration"

/-- A backend whose check interval is 2000 and whose other fields are the mode
`http` and the name `default-web-80`. -/
def sampleBackend : models.Backend String String :=
  { DefaultServer := { Inter := some 2000, rest := "http" }, rest := "default-web-80" }

/-- A pod DELETE event in state `s` is processed, generates exactly one
document, leaves `hadChanges` as it was and, when the pod is not registered,
leaves the store as it was. -/
def PodDeleteKeepsStore (getGlobal getDefault : String) (s : SyncState) (p : Pod) : Prop :=
  ∃ s1, syncJob getGlobal getDefault s (.POD .Deleted p) = .ok s1 ∧
    s1.generated.length = s.generated.length + 1 ∧
    s1.hadChanges = s.hadChanges ∧
    (getPod s.c p.Namespace p.Name = none → s1.c = s.c)

/-- Every rule of every ingress of every watched namespace of the store carries
its `HTTP` value: the rules that `UpdateHAProxy` reads give no nil pointer to
dereference. -/
def HTTPPresent (c : HAProxyController) : Prop :=
  ∀ e ∈ c.Namespaces, e.2.Watch = true →
    ∀ f ∈ e.2.Ingresses, ∀ r ∈ f.2.Rules, r.HTTP ≠ none

/-- A document that `UpdateHAProxy` may generate from the store `c`: the one it
returns under some enumeration order of the maps of the store (lines 244, 248
and 279 range over Go maps, whose enumeration order is not fixed). -/
def MayGenerate (getGlobal getDefault : String) (c : HAProxyController) (doc : String) :
    Prop :=
  ∃ c1, SameStore c c1 ∧ UpdateHAProxy getGlobal getDefault c1 = some doc

/-- In the spec's words: applying an event twice leaves the same next
generated document as applying it once. In a state that `SyncData` has
reached, whatever document `UpdateHAProxy` may generate from the store left by
the event applied twice, and whatever document from the store left by the
event applied once, the two are the same. -/
def EventTwiceSameDocument (getGlobal getDefault : String) : Prop :=
  ∀ (jobChan : List SyncDataEvent) (s : SyncState) (e : SyncDataEvent) (doc doc1 : String),
    SyncData getGlobal getDefault jobChan = .ok s →
    MayGenerate getGlobal getDefault (reached (runJobs getGlobal getDefault s [e, e])).c doc →
    MayGenerate getGlobal getDefault (reached (runJobs getGlobal getDefault s [e])).c doc1 →
    doc = doc1

/-- The events that build the store of scenario 1: the service, the two pods
and the ingress are added. -/
def scenarioEvents : List SyncDataEvent :=
  [.SERVICE .Added scenarioService, .POD .Added scenarioPodA, .POD .Added scenarioPodB,
    .INGRESS .Added scenarioIngress]

/-- An ingress of the namespace `default` whose one rule names the host
`foo.bar` and nothing else: its `HTTP` is nil. -/
def hostOnlyIngress : Ingress :=
  { Name := "bare", Namespace := "default", Annotations := [],
    Rules := [{ Host := "foo.bar", HTTP := none }] }

/-- The store that holds `hostOnlyIngress` and no pod. -/
def storeHostOnly : HAProxyController :=
  { Namespaces :=
      [("default", { NewNamespace "default" with Ingresses := [("bare", hostOnlyIngress)] })]
    ConfigMap := [] }

/-! ## Theorems -/

/-! ### Go maps -/

theorem mapGet_mem {V : Type} (m : GoMap V) (key : String) (v : V)
    (h : mapGet m key = some v) : (key, v) ∈ m := by
  induction m with
  | nil => simp [mapGet] at h
  | cons e m ih =>
    obtain ⟨k, w⟩ := e
    by_cases hk : k = key
    · simp [mapGet, hk] at h
      simp [hk, h]
    · simp [mapGet, hk] at h
      exact List.mem_cons_of_mem _ (ih h)

/-! ### Folds -/

theorem foldl_inv {α β : Type} (P : β → Prop) (f : β → α → β) (l : List α) (b : β)
    (hb : P b) (hstep : ∀ b a, a ∈ l → P b → P (f b a)) : P (l.foldl f b) := by
  induction l generalizing b with
  | nil => exact hb
  | cons a l ih =>
    simp only [List.foldl_cons]
    exact ih (f b a) (hstep b a (List.mem_cons_self _ _) hb)
      (fun b x hx hP => hstep b x (List.mem_cons_of_mem _ hx) hP)

theorem foldl_established {α β : Type} (Q : β → Prop) (f : β → α → β) (l : List α)
    (b : β) (a : α) (ha : a ∈ l) (hest : ∀ b, Q (f b a))
    (hpres : ∀ b x, Q b → Q (f b x)) : Q (l.foldl f b) := by
  obtain ⟨l1, l2, rfl⟩ := List.append_of_mem ha
  rw [List.foldl_append, List.foldl_cons]
  exact foldl_inv Q f l2 _ (hest _) (fun b x _ hQ => hpres b x hQ)

/-! ### The loops as a sequence of visits -/

theorem foldl_flatMap {α β γ : Type} (f : γ → β → γ) (g : α → List β) (l : List α)
    (b : γ) :
    (l.flatMap g).foldl f b = l.foldl (fun acc a => (g a).foldl f acc) b := by
  induction l generalizing b with
  | nil => rfl
  | cons a l ih => simp [List.flatMap_cons, List.foldl_append, ih]

/-- The path loop body does not panic. -/
theorem processPath_panicked (ns : Namespace) (rule : IngressRule) (b : Buffers)
    (path : HTTPIngressPath) : (processPath ns rule b path).panicked = b.panicked := by
  unfold processPath
  cases mapGet ns.Services path.Backend.ServiceName with
  | none => rfl
  | some svc =>
    simp only
    split
    · rfl
    · split
      · rfl
      · rfl

theorem foldl_processPath_panicked (ns : Namespace) (rule : IngressRule)
    (paths : List HTTPIngressPath) (b : Buffers) :
    (paths.foldl (processPath ns rule) b).panicked = b.panicked := by
  induction paths generalizing b with
  | nil => rfl
  | cons p paths ih =>
    simp only [List.foldl_cons]
    rw [ih, processPath_panicked]

/-- After a panic no step changes the buffers. -/
theorem foldl_applyVisit_panicked (l : List Visit) (b : Buffers)
    (h : b.panicked = true) : l.foldl applyVisit b = b := by
  induction l with
  | nil => rfl
  | cons v l ih =>
    simp only [List.foldl_cons]
    have hv : applyVisit b v = b := by simp [applyVisit, h]
    rw [hv]
    exact ih

theorem foldl_applyVisit_paths (ns : Namespace) (rule : IngressRule)
    (paths : List HTTPIngressPath) (b : Buffers) (h : b.panicked = false) :
    (paths.map (.path ns rule)).foldl applyVisit b =
      paths.foldl (processPath ns rule) b := by
  induction paths generalizing b with
  | nil => rfl
  | cons p paths ih =>
    simp only [List.map_cons, List.foldl_cons]
    have hv : applyVisit b (.path ns rule p) = processPath ns rule b p := by
      simp [applyVisit, h]
    rw [hv]
    exact ih _ (by rw [processPath_panicked]; exact h)

theorem processRule_eq_visits (ns : Namespace) (b : Buffers) (rule : IngressRule) :
    processRule ns b rule = (visitsOfRule ns rule).foldl applyVisit b := by
  cases hp : b.panicked with
  | true =>
    rw [foldl_applyVisit_panicked _ _ hp]
    simp [processRule, hp]
  | false =>
    have hv : applyVisit b (.rule ns rule) = { b with acls := b.acls ++ [rule.Host] } := by
      simp [applyVisit, hp]
    simp only [visitsOfRule, List.foldl_cons, hv]
    cases hh : rule.HTTP with
    | none =>
      simp [processRule, hp, hh, applyVisit]
    | some http =>
      simp only [processRule, hp, hh, Bool.false_eq_true, if_false]
      exact (foldl_applyVisit_paths ns rule http.Paths _ rfl).symm

theorem processIngress_eq_visits (ns : Namespace) (b : Buffers) (ingress : Ingress) :
    processIngress ns b ingress = (visitsOfIngress ns ingress).foldl applyVisit b := by
  have h : processRule ns = fun acc a => (visitsOfRule ns a).foldl applyVisit acc := by
    funext acc a
    exact processRule_eq_visits ns acc a
  simp [processIngress, visitsOfIngress, foldl_flatMap, h]

theorem processNamespace_eq_visits (b : Buffers) (ns : Namespace) :
    processNamespace b ns = (visitsOfNamespace ns).foldl applyVisit b := by
  unfold processNamespace visitsOfNamespace
  split
  · rfl
  · simp [foldl_flatMap, processIngress_eq_visits]

theorem buildBuffers_eq_visits (c : HAProxyController) :
    buildBuffers c = (visits c).foldl applyVisit Buffers.empty := by
  simp [buildBuffers, visits, foldl_flatMap, processNamespace_eq_visits]

theorem mem_visitsOfRule_path (ns ns1 : Namespace) (rule rule1 : IngressRule)
    (path : HTTPIngressPath) :
    Visit.path ns rule path ∈ visitsOfRule ns1 rule1 ↔
      ns = ns1 ∧ rule = rule1 ∧ path ∈ rule1.paths := by
  unfold visitsOfRule IngressRule.paths
  cases rule1.HTTP with
  | none => simp
  | some http =>
    simp only [List.mem_cons, List.mem_map]
    constructor
    · rintro (h | ⟨p, hp, h⟩)
      · cases h
      · injection h with h1 h2 h3
        subst h1 h2 h3
        exact ⟨rfl, rfl, hp⟩
    · rintro ⟨rfl, rfl, hp⟩
      exact Or.inr ⟨path, hp, rfl⟩

theorem mem_visits_path (c : HAProxyController) (ns : Namespace) (rule : IngressRule)
    (path : HTTPIngressPath) :
    Visit.path ns rule path ∈ visits c ↔
      (∃ nk, (nk, ns) ∈ c.Namespaces) ∧ ns.Watch = true ∧
      (∃ ik ingress, (ik, ingress) ∈ ns.Ingresses ∧ rule ∈ ingress.Rules) ∧
      path ∈ rule.paths := by
  constructor
  · intro h
    simp only [visits, List.mem_flatMap] at h
    obtain ⟨⟨nk, ns1⟩, hns, h⟩ := h
    unfold visitsOfNamespace at h
    split at h
    · simp at h
    · rename_i hw
      simp only [List.mem_flatMap] at h
      obtain ⟨⟨ik, ing⟩, hing, h⟩ := h
      simp only [visitsOfIngress, List.mem_flatMap] at h
      obtain ⟨r, hr, h⟩ := h
      obtain ⟨h1, h2, hp⟩ := (mem_visitsOfRule_path _ _ _ _ _).1 h
      subst h1 h2
      exact ⟨⟨nk, hns⟩, by simpa using hw, ⟨ik, ing, hing, hr⟩, hp⟩
  · rintro ⟨⟨nk, hns⟩, hw, ⟨ik, ing, hing, hr⟩, hp⟩
    simp only [visits, List.mem_flatMap]
    refine ⟨(nk, ns), hns, ?_⟩
    simp only [visitsOfNamespace, hw, Bool.true_eq_false, if_false, List.mem_flatMap]
    refine ⟨(ik, ing), hing, ?_⟩
    simp only [visitsOfIngress, List.mem_flatMap]
    exact ⟨rule, hr, (mem_visitsOfRule_path _ _ _ _ _).2 ⟨rfl, rfl, hp⟩⟩

/-! ### The path loop body, case by case -/

theorem sections_append (ws vs : List BackendsWrite) :
    sections (ws ++ vs) = sections ws ++ sections vs := by
  induction ws with
  | nil => rfl
  | cons w ws ih => cases w <;> simp [sections, ih]

theorem sectionNames_append (ws vs : List BackendsWrite) :
    sectionNames (ws ++ vs) = sectionNames ws ++ sectionNames vs := by
  simp [sectionNames, sections_append]

theorem sectionNames_snoc_newline (ws : List BackendsWrite) :
    sectionNames (ws ++ [.newline]) = sectionNames ws := by
  simp [sectionNames, sections_append, sections]

theorem sectionNames_snoc_sect (ws : List BackendsWrite) (s : BackendSection) :
    sectionNames (ws ++ [.sect s, .newline]) = sectionNames ws ++ [s.name] := by
  simp [sectionNames, sections_append, sections]

/-- The four ways through the path loop body: service not found; service
without selector; backend already created; backend created now. -/
theorem processPath_cases (ns : Namespace) (rule : IngressRule) (b : Buffers)
    (path : HTTPIngressPath) :
    (mapGet ns.Services path.Backend.ServiceName = none ∧ processPath ns rule b path = b) ∨
    (∃ svc, mapGet ns.Services path.Backend.ServiceName = some svc ∧ svc.Selector = [] ∧
      processPath ns rule b path =
        { b with useBackend := b.useBackend ++ [useBackendOf ns rule path] }) ∨
    (∃ svc, mapGet ns.Services path.Backend.ServiceName = some svc ∧ svc.Selector ≠ [] ∧
      backendName ns.Name svc.Name path.Backend.ServicePort.String ∈ b.createdBackends ∧
      processPath ns rule b path =
        { b with
          useBackend := b.useBackend ++ [useBackendOf ns rule path]
          backends := b.backends ++ [.newline] }) ∨
    (∃ svc, mapGet ns.Services path.Backend.ServiceName = some svc ∧ svc.Selector ≠ [] ∧
      backendName ns.Name svc.Name path.Backend.ServicePort.String ∉ b.createdBackends ∧
      processPath ns rule b path =
        { b with
          useBackend := b.useBackend ++ [useBackendOf ns rule path]
          backends := b.backends ++
            [.sect { name := backendName ns.Name svc.Name path.Backend.ServicePort.String
                     servers := serverLines svc.Selector path.Backend.ServicePort.String
                       ns.Pods 0 },
             .newline]
          createdBackends :=
            backendName ns.Name svc.Name path.Backend.ServicePort.String ::
              b.createdBackends }) := by
  unfold processPath
  cases hsvc : mapGet ns.Services path.Backend.ServiceName with
  | none => exact Or.inl ⟨rfl, rfl⟩
  | some svc =>
    right
    by_cases hsel : svc.Selector = []
    · left
      exact ⟨svc, rfl, hsel, by simp [hsel, useBackendOf]⟩
    · right
      have hlen : ¬ svc.Selector.length = 0 := by
        simpa [List.length_eq_zero] using hsel
      by_cases hmem :
          backendName ns.Name svc.Name path.Backend.ServicePort.String ∈ b.createdBackends
      · left
        exact ⟨svc, rfl, hsel, hmem, by simp [hlen, hmem, useBackendOf]⟩
      · right
        exact ⟨svc, rfl, hsel, hmem, by simp [hlen, hmem, useBackendOf]⟩

/-! ### The set `createdBackends` and the section headers -/

theorem headersTracked_empty : HeadersTracked Buffers.empty := by
  simp [HeadersTracked, Buffers.empty, sectionNames, sections]

/-- A property of the buffers that holds before a step holds after it, when
the ACL write, the panic and the path loop body each keep it. -/
theorem visit_inv (P : Buffers → Prop) (b : Buffers) (v : Visit) (hP : P b)
    (hrule : ∀ ns rule, v = .rule ns rule → P { b with acls := b.acls ++ [rule.Host] })
    (hnil : P { b with panicked := true })
    (hpath : ∀ ns rule path, v = .path ns rule path → P (processPath ns rule b path)) :
    P (applyVisit b v) := by
  unfold applyVisit
  split
  · exact hP
  · cases v with
    | rule ns rule => exact hrule ns rule rfl
    | nilHTTP ns rule => exact hnil
    | path ns rule path => exact hpath ns rule path rfl

theorem headersTracked_applyVisit (b : Buffers) (v : Visit) (h : HeadersTracked b) :
    HeadersTracked (applyVisit b v) := by
  refine visit_inv HeadersTracked b v h (fun _ _ _ => h) h ?_
  intro ns rule path _
  obtain ⟨hnd, hiff⟩ := h
  rcases processPath_cases ns rule b path with
    ⟨_, he⟩ | ⟨svc, _, _, he⟩ | ⟨svc, _, _, _, he⟩ | ⟨svc, _, _, hmem, he⟩
  · rw [he]; exact ⟨hnd, hiff⟩
  · rw [he]; exact ⟨hnd, hiff⟩
  · rw [he]
    simp only [HeadersTracked, sectionNames_snoc_newline]
    exact ⟨hnd, hiff⟩
  · rw [he]
    have hnot : backendName ns.Name svc.Name path.Backend.ServicePort.String ∉
        sectionNames b.backends := fun hin => hmem ((hiff _).1 hin)
    simp only [HeadersTracked, sectionNames_snoc_sect]
    refine ⟨?_, ?_⟩
    · rw [List.nodup_append]
      refine ⟨hnd, List.nodup_singleton _, ?_⟩
      intro n hn hn2
      rw [List.mem_singleton] at hn2
      exact hnot (hn2 ▸ hn)
    · intro n
      rw [List.mem_append, List.mem_singleton, List.mem_cons]
      constructor
      · rintro (hn | hn)
        · exact Or.inr ((hiff n).1 hn)
        · exact Or.inl hn
      · rintro (hn | hn)
        · exact Or.inr hn
        · exact Or.inl ((hiff n).2 hn)

theorem headersTracked_buildBuffers (c : HAProxyController) :
    HeadersTracked (buildBuffers c) := by
  rw [buildBuffers_eq_visits]
  exact foldl_inv HeadersTracked applyVisit (visits c) _ headersTracked_empty
    (fun b v _ h => headersTracked_applyVisit b v h)

theorem backend_headers_nodup_aux (c : HAProxyController) :
    (sectionNames (buildBuffers c).backends).Nodup :=
  (headersTracked_buildBuffers c).1

/-- A name once in `createdBackends` stays there. -/
theorem createdBackends_processPath (n : String) (ns : Namespace) (rule : IngressRule)
    (b : Buffers) (path : HTTPIngressPath) (h : n ∈ b.createdBackends) :
    n ∈ (processPath ns rule b path).createdBackends := by
  rcases processPath_cases ns rule b path with
    ⟨_, he⟩ | ⟨svc, _, _, he⟩ | ⟨svc, _, _, _, he⟩ | ⟨svc, _, _, _, he⟩
  · rw [he]; exact h
  · rw [he]; exact h
  · rw [he]; exact h
  · rw [he]; exact List.mem_cons_of_mem _ h

/-- After the loop body has run on a path whose service has a selector, the
backend name of that service is in `createdBackends`. -/
theorem createdBackends_after_path (ns : Namespace) (rule : IngressRule)
    (path : HTTPIngressPath) (svc : Service) (b : Buffers)
    (hsvc : mapGet ns.Services path.Backend.ServiceName = some svc)
    (hsel : svc.Selector ≠ []) :
    backendName ns.Name svc.Name path.Backend.ServicePort.String ∈
      (processPath ns rule b path).createdBackends := by
  rcases processPath_cases ns rule b path with
    ⟨hn, _⟩ | ⟨svc1, h1, h2, _⟩ | ⟨svc1, h1, _, hmem, he⟩ | ⟨svc1, h1, _, _, he⟩
  · rw [hsvc] at hn; cases hn
  · rw [hsvc] at h1; cases h1; exact absurd h2 hsel
  · rw [hsvc] at h1; cases h1; rw [he]; exact hmem
  · rw [hsvc] at h1; cases h1; rw [he]; exact List.mem_cons_self _ _

theorem referenced_mem_visits {c : HAProxyController} {ns : Namespace}
    {rule : IngressRule} {path : HTTPIngressPath} {svc : Service}
    (h : Referenced c ns rule path svc) : Visit.path ns rule path ∈ visits c :=
  (mem_visits_path c ns rule path).2 ⟨h.1, h.2.1, h.2.2.1, h.2.2.2.1⟩

/-- Unless the run panics, every referenced service with a selector has its
backend section. -/
theorem referenced_section_exists (c : HAProxyController) (ns : Namespace)
    (rule : IngressRule) (path : HTTPIngressPath) (svc : Service)
    (hdoc : (buildBuffers c).panicked = false)
    (href : Referenced c ns rule path svc) (hsel : svc.Selector ≠ []) :
    backendName ns.Name svc.Name path.Backend.ServicePort.String ∈
      sectionNames (buildBuffers c).backends := by
  rw [(headersTracked_buildBuffers c).2]
  have hq : (buildBuffers c).panicked = true ∨
      backendName ns.Name svc.Name path.Backend.ServicePort.String ∈
        (buildBuffers c).createdBackends := by
    rw [buildBuffers_eq_visits]
    refine foldl_established
      (fun b => b.panicked = true ∨
        backendName ns.Name svc.Name path.Backend.ServicePort.String ∈ b.createdBackends)
      applyVisit (visits c) _ _ (referenced_mem_visits href) ?_ ?_
    · intro b
      cases hp : b.panicked with
      | true =>
        left
        simp [applyVisit, hp]
      | false =>
        right
        have hv : applyVisit b (.path ns rule path) = processPath ns rule b path := by
          simp [applyVisit, hp]
        rw [hv]
        exact createdBackends_after_path ns rule path svc b href.2.2.2.2 hsel
    · intro b v hq
      refine visit_inv
        (fun b1 => b1.panicked = true ∨
          backendName ns.Name svc.Name path.Backend.ServicePort.String ∈ b1.createdBackends)
        b v hq (fun _ _ _ => hq) (Or.inl rfl) ?_
      intro ns1 rule1 path1 _
      rcases hq with hq | hq
      · left
        rw [processPath_panicked]
        exact hq
      · exact Or.inr (createdBackends_processPath _ ns1 rule1 b path1 hq)
  rcases hq with hq | hq
  · rw [hdoc] at hq
    cases hq
  · exact hq

/-- Every `use_backend` directive was written for a referenced path. -/
theorem useBackend_origin (c : HAProxyController) :
    ∀ u ∈ (buildBuffers c).useBackend,
      ∃ ns rule path svc, Referenced c ns rule path svc ∧ u = useBackendOf ns rule path := by
  rw [buildBuffers_eq_visits]
  refine foldl_inv
    (fun b => ∀ u ∈ b.useBackend,
      ∃ ns rule path svc, Referenced c ns rule path svc ∧ u = useBackendOf ns rule path)
    applyVisit (visits c) Buffers.empty (by simp [Buffers.empty]) ?_
  intro b v hv hb
  refine visit_inv
    (fun b => ∀ u ∈ b.useBackend,
      ∃ ns rule path svc, Referenced c ns rule path svc ∧ u = useBackendOf ns rule path)
    b v hb (fun _ _ _ => hb) hb ?_
  intro ns rule path hveq
  subst hveq
  have hm := (mem_visits_path c ns rule path).1 hv
  have hnew : ∀ svc, mapGet ns.Services path.Backend.ServiceName = some svc →
      ∀ u ∈ b.useBackend ++ [useBackendOf ns rule path],
        ∃ ns rule path svc, Referenced c ns rule path svc ∧
          u = useBackendOf ns rule path := by
    intro svc hsvc u hu
    rcases List.mem_append.1 hu with hu | hu
    · exact hb u hu
    · simp only [List.mem_singleton] at hu
      exact ⟨ns, rule, path, svc, ⟨hm.1, hm.2.1, hm.2.2.1, hm.2.2.2, hsvc⟩, hu⟩
  rcases processPath_cases ns rule b path with
    ⟨_, he⟩ | ⟨svc, h1, _, he⟩ | ⟨svc, h1, _, _, he⟩ | ⟨svc, h1, _, _, he⟩
  · rw [he]; exact hb
  · rw [he]; exact hnew svc h1
  · rw [he]; exact hnew svc h1
  · rw [he]; exact hnew svc h1

/-! ### C10 -/

/-- C10: in the document that `UpdateHAProxy` generates from any store, no two
`backend <name>` section headers carry the same name, however many ingress
paths reference the same namespace, service and port. -/
theorem backend_headers_nodup (c : HAProxyController) :
    (sectionNames (buildBuffers c).backends).Nodup :=
  backend_headers_nodup_aux c

/-! ### C1 -/

/-- C1, as stated, fails: the store `storeNoSelector` yields a `use_backend`
directive whose backend has no section at all. -/
theorem use_backend_unmatched_without_selector :
    ¬ UseBackendMatched (buildBuffers storeNoSelector) := by
  unfold UseBackendMatched
  decide

/-- C1, amended: in a store whose services are registered under their own
names, every `use_backend` directive was written for a referenced path, its
backend name heads at most one backend section, and, the run of the loops
having completed (so that a document is generated), it heads exactly one
whenever the path's service has a non-empty selector. -/
theorem use_backend_section_count (c : HAProxyController) (hkeys : ServicesKeyed c)
    (u : UseBackend) (hu : u ∈ (buildBuffers c).useBackend) :
    (sectionNames (buildBuffers c).backends).count u.backend ≤ 1 ∧
    (∃ ns rule path svc, Referenced c ns rule path svc ∧ u = useBackendOf ns rule path) ∧
    (∀ ns rule path svc, Referenced c ns rule path svc → u = useBackendOf ns rule path →
      svc.Selector ≠ [] → (buildBuffers c).panicked = false →
      (sectionNames (buildBuffers c).backends).count u.backend = 1) := by
  refine ⟨List.nodup_iff_count_le_one.1 (backend_headers_nodup_aux c) _,
    useBackend_origin c u hu, ?_⟩
  intro ns rule path svc href hueq hsel hdoc
  obtain ⟨nk, hns⟩ := href.1
  have hname : svc.Name = path.Backend.ServiceName :=
    hkeys (nk, ns) hns (_, svc) (mapGet_mem _ _ _ href.2.2.2.2)
  have hmem := referenced_section_exists c ns rule path svc hdoc href hsel
  rw [hname] at hmem
  have hb : u.backend =
      backendName ns.Name path.Backend.ServiceName path.Backend.ServicePort.String := by
    rw [hueq]; rfl
  rw [hb]
  exact List.count_eq_one_of_mem (backend_headers_nodup_aux c) hmem

/-- C1 at the store of scenario 1: the directive for `web:80` has exactly one
backend section. -/
theorem use_backend_section_count_witness :
    ServicesKeyed storeScenario ∧
    useBackendOf scenarioNamespace scenarioRule scenarioPath ∈
      (buildBuffers storeScenario).useBackend ∧
    (sectionNames (buildBuffers storeScenario).backends).count "default-web-80" = 1 :=
  ⟨by unfold ServicesKeyed; decide, by decide,
    (use_backend_section_count storeScenario (by unfold ServicesKeyed; decide)
      (useBackendOf scenarioNamespace scenarioRule scenarioPath) (by decide)).2.2
      scenarioNamespace scenarioRule scenarioPath scenarioService
      ⟨⟨"default", by decide⟩, rfl, ⟨"site", scenarioIngress, by decide, by decide⟩,
        by decide, by decide⟩
      rfl (by decide) (by decide)⟩

/-! ### C2 -/

theorem hasSelectors_iff (selector labels : GoMap String) :
    hasSelectors selector labels = true ↔
      ∀ e ∈ selector, mapGet labels e.1 = some e.2 := by
  simp [hasSelectors, List.all_eq_true]

/-- Each server line comes from a running pod that matches the selector. -/
theorem serverLines_sound (selector : GoMap String) (port : String) (pods : GoMap Pod)
    (index : Nat) (l : ServerLine) (hl : l ∈ serverLines selector port pods index) :
    ∃ k pod, (k, pod) ∈ pods ∧ pod.Status = PodRunning ∧
      hasSelectors selector pod.Labels = true ∧ l.ip = pod.IP ∧ l.port = port := by
  induction pods generalizing index with
  | nil => simp [serverLines] at hl
  | cons e pods ih =>
    obtain ⟨k, pod⟩ := e
    unfold serverLines at hl
    split at hl
    · rename_i hc
      rcases List.mem_cons.1 hl with hl | hl
      · exact ⟨k, pod, List.mem_cons_self _ _, hc.1, hc.2, by rw [hl], by rw [hl]⟩
      · obtain ⟨k1, p1, hm, h⟩ := ih _ hl
        exact ⟨k1, p1, List.mem_cons_of_mem _ hm, h⟩
    · obtain ⟨k1, p1, hm, h⟩ := ih _ hl
      exact ⟨k1, p1, List.mem_cons_of_mem _ hm, h⟩

/-- Each running pod that matches the selector has a server line. -/
theorem serverLines_complete (selector : GoMap String) (port : String) (pods : GoMap Pod)
    (index : Nat) (k : String) (pod : Pod) (hm : (k, pod) ∈ pods)
    (hrun : pod.Status = PodRunning) (hsel : hasSelectors selector pod.Labels = true) :
    ∃ l ∈ serverLines selector port pods index, l.ip = pod.IP ∧ l.port = port := by
  induction pods generalizing index with
  | nil => cases hm
  | cons e pods ih =>
    obtain ⟨k1, p1⟩ := e
    rcases List.mem_cons.1 hm with hm | hm
    · injection hm with h1 h2
      subst h1 h2
      refine ⟨⟨index, pod.IP, port⟩, ?_, rfl, rfl⟩
      unfold serverLines
      rw [if_pos ⟨hrun, hsel⟩]
      exact List.mem_cons_self _ _
    · unfold serverLines
      split
      · obtain ⟨l, hl, h⟩ := ih (index + 1) hm
        exact ⟨l, List.mem_cons_of_mem _ hl, h⟩
      · exact ih index hm

theorem sections_snoc_newline (ws : List BackendsWrite) :
    sections (ws ++ [.newline]) = sections ws := by
  simp [sections_append, sections]

theorem sections_snoc_sect (ws : List BackendsWrite) (s : BackendSection) :
    sections (ws ++ [.sect s, .newline]) = sections ws ++ [s] := by
  simp [sections_append, sections]

/-- Every backend section was written for a referenced path whose service has a
selector: it carries that service's backend name and the server lines of the
pod loop over that namespace. -/
theorem section_origin (c : HAProxyController) :
    ∀ sec ∈ sections (buildBuffers c).backends,
      ∃ ns rule path svc, Referenced c ns rule path svc ∧ svc.Selector ≠ [] ∧
        sec =
          { name := backendName ns.Name svc.Name path.Backend.ServicePort.String
            servers := serverLines svc.Selector path.Backend.ServicePort.String ns.Pods 0 } := by
  rw [buildBuffers_eq_visits]
  refine foldl_inv
    (fun b => ∀ sec ∈ sections b.backends,
      ∃ ns rule path svc, Referenced c ns rule path svc ∧ svc.Selector ≠ [] ∧
        sec =
          { name := backendName ns.Name svc.Name path.Backend.ServicePort.String
            servers := serverLines svc.Selector path.Backend.ServicePort.String ns.Pods 0 })
    applyVisit (visits c) Buffers.empty (by simp [Buffers.empty, sections]) ?_
  intro b v hv hb
  refine visit_inv
    (fun b => ∀ sec ∈ sections b.backends,
      ∃ ns rule path svc, Referenced c ns rule path svc ∧ svc.Selector ≠ [] ∧
        sec =
          { name := backendName ns.Name svc.Name path.Backend.ServicePort.String
            servers := serverLines svc.Selector path.Backend.ServicePort.String ns.Pods 0 })
    b v hb (fun _ _ _ => hb) hb ?_
  intro ns rule path hveq
  subst hveq
  have hm := (mem_visits_path c ns rule path).1 hv
  rcases processPath_cases ns rule b path with
    ⟨_, he⟩ | ⟨svc, h1, _, he⟩ | ⟨svc, h1, _, _, he⟩ | ⟨svc, h1, hsel, _, he⟩
  · rw [he]; exact hb
  · rw [he]; exact hb
  · rw [he]
    simp only [sections_snoc_newline]
    exact hb
  · rw [he]
    simp only [sections_snoc_sect]
    intro sec hsec
    rcases List.mem_append.1 hsec with hsec | hsec
    · exact hb sec hsec
    · rw [List.mem_singleton] at hsec
      exact ⟨ns, rule, path, svc, ⟨hm.1, hm.2.1, hm.2.2.1, hm.2.2.2, h1⟩, hsel, hsec⟩

theorem serverLines_serve (ns : Namespace) (svc : Service) (port : String) :
    SectionServesPods
      { name := backendName ns.Name svc.Name port
        servers := serverLines svc.Selector port ns.Pods 0 } ns svc port := by
  constructor
  · intro l hl
    obtain ⟨k, pod, hm, hrun, hsel, hip, hport⟩ := serverLines_sound _ _ _ _ l hl
    exact ⟨k, pod, hm, hrun, (hasSelectors_iff _ _).1 hsel, hip, hport⟩
  · intro k pod hm hrun hsel
    exact serverLines_complete _ _ _ _ k pod hm hrun ((hasSelectors_iff _ _).2 hsel)

theorem referenced_clashPathA :
    Referenced storeNameClash clashNamespace clashRule clashPathA clashServiceA :=
  ⟨⟨"default", by decide⟩, rfl, ⟨"site", clashIngress, by decide, by decide⟩,
    by decide, by decide⟩

/-- C2, as stated, fails: in `storeNameClash`, which `SyncData` builds from four
ADD events, the pairs (`a-b`, 2) and (`a`, `b-2`) share the backend name
`default-a-b-2`; its one section is written for `a-b`, so the running pod that
matches the selector of `a` has no server line in it. -/
theorem servers_mismatch_on_name_clash :
    SyncData "" ""
        [.SERVICE .Added clashServiceAB, .SERVICE .Added clashServiceA,
         .POD .Added clashPod, .INGRESS .Added clashIngress] =
      .ok { c := storeNameClash, hadChanges := true, generated := [] } ∧
    ¬ ServersMatchPods storeNameClash := by
  refine ⟨rfl, ?_⟩
  intro h
  have hsec : (⟨"default-a-b-2", []⟩ : BackendSection) ∈
      sections (buildBuffers storeNameClash).backends := by decide
  obtain ⟨-, hconv⟩ :=
    h clashNamespace clashRule clashPathA clashServiceA referenced_clashPathA (by decide)
      ⟨"default-a-b-2", []⟩ hsec (by decide)
  obtain ⟨l, hl, -⟩ := hconv "p" clashPod (by decide) (by decide) (by decide)
  cases hl

/-- C2, amended: in a store whose services are registered under their own
names, take a referenced path whose service has a non-empty selector and whose
backend name no other referenced (namespace, service, port) shares. Then,
the run of the loops having completed (so that a document is generated), the
document has a backend section of that name; and the server lines of every
such section are those of the running, selector-matching pods of the
namespace: each line is `<pod-ip>:<port>` of such a pod, and each such pod has
a line. -/
theorem backend_servers_match_pods (c : HAProxyController) (hkeys : ServicesKeyed c)
    (ns : Namespace) (rule : IngressRule) (path : HTTPIngressPath) (svc : Service)
    (href : Referenced c ns rule path svc) (hsel : svc.Selector ≠ [])
    (hclash : ∀ ns1 rule1 path1 svc1, Referenced c ns1 rule1 path1 svc1 →
      svc1.Selector ≠ [] →
      (useBackendOf ns1 rule1 path1).backend = (useBackendOf ns rule path).backend →
      ns1 = ns ∧ svc1 = svc ∧
        path1.Backend.ServicePort.String = path.Backend.ServicePort.String) :
    ((buildBuffers c).panicked = false →
      ∃ sec ∈ sections (buildBuffers c).backends,
        sec.name = (useBackendOf ns rule path).backend) ∧
    (∀ sec ∈ sections (buildBuffers c).backends,
      sec.name = (useBackendOf ns rule path).backend →
      SectionServesPods sec ns svc path.Backend.ServicePort.String) := by
  have hname : ∀ ns1 rule1 path1 svc1, Referenced c ns1 rule1 path1 svc1 →
      backendName ns1.Name svc1.Name path1.Backend.ServicePort.String =
        (useBackendOf ns1 rule1 path1).backend := by
    intro ns1 rule1 path1 svc1 h1
    obtain ⟨nk, hns⟩ := h1.1
    have : svc1.Name = path1.Backend.ServiceName :=
      hkeys (nk, ns1) hns (_, svc1) (mapGet_mem _ _ _ h1.2.2.2.2)
    rw [this]; rfl
  constructor
  · intro hdoc
    have hmem := referenced_section_exists c ns rule path svc hdoc href hsel
    rw [hname ns rule path svc href] at hmem
    simp only [sectionNames, List.mem_map] at hmem
    obtain ⟨sec, hsec, hn⟩ := hmem
    exact ⟨sec, hsec, hn⟩
  · intro sec hsec hn
    obtain ⟨ns1, rule1, path1, svc1, href1, hsel1, rfl⟩ := section_origin c sec hsec
    simp only at hn
    rw [hname ns1 rule1 path1 svc1 href1] at hn
    obtain ⟨rfl, rfl, hport⟩ := hclash ns1 rule1 path1 svc1 href1 hsel1 hn
    rw [← hport]
    exact serverLines_serve ns1 svc1 _

/-! ### C9 -/

theorem visits_watchedOnly (c : HAProxyController) : visits (watchedOnly c) = visits c := by
  unfold visits watchedOnly
  simp only
  induction c.Namespaces with
  | nil => rfl
  | cons e l ih =>
    cases hw : e.2.Watch with
    | true => simp [List.filter_cons, hw, List.flatMap_cons, ih]
    | false =>
      have hnil : visitsOfNamespace e.2 = [] := by simp [visitsOfNamespace, hw]
      simp [List.filter_cons, hw, List.flatMap_cons, ih, hnil]

/-- C9: the document that `UpdateHAProxy` generates from any store equals the
one generated from the same store with all unwatched namespaces removed; the
ingresses, services and pods of a namespace whose `Watch` flag is false add no
ACL, no `use_backend` directive, no backend section and no server line. -/
theorem unwatched_namespaces_contribute_nothing (getGlobal getDefault : String)
    (c : HAProxyController) :
    buildBuffers c = buildBuffers (watchedOnly c) ∧
    UpdateHAProxy getGlobal getDefault c =
      UpdateHAProxy getGlobal getDefault (watchedOnly c) := by
  have h : buildBuffers c = buildBuffers (watchedOnly c) := by
    rw [buildBuffers_eq_visits, buildBuffers_eq_visits, visits_watchedOnly]
  exact ⟨h, by simp [UpdateHAProxy, h]⟩

/-! ### C8 -/

theorem foldl_filter_noop {α β : Type} (f : β → α → β) (keep : α → Bool) (l : List α)
    (b : β) (h : ∀ b a, a ∈ l → keep a = false → f b a = b) :
    (l.filter keep).foldl f b = l.foldl f b := by
  induction l generalizing b with
  | nil => rfl
  | cons a l ih =>
    have ih1 := fun b => ih b (fun b x hx hk => h b x (List.mem_cons_of_mem _ hx) hk)
    cases hk : keep a with
    | true => simp [List.filter_cons, hk, ih1]
    | false =>
      simp only [List.filter_cons, hk, Bool.false_eq_true, if_false, List.foldl_cons]
      rw [h b a (List.mem_cons_self _ _) hk]
      exact ih1 b

/-- The path loop body reads the name, the services and the pods of the
namespace, and the host of the rule. -/
theorem processPath_congr (ns ns1 : Namespace) (rule rule1 : IngressRule)
    (hn : ns1.Name = ns.Name) (hs : ns1.Services = ns.Services) (hp : ns1.Pods = ns.Pods)
    (hh : rule1.Host = rule.Host) (b : Buffers) (path : HTTPIngressPath) :
    processPath ns1 rule1 b path = processPath ns rule b path := by
  simp only [processPath, hn, hs, hp, hh]

/-- The rule loop body gives the same buffers without paths on which the path
loop body does nothing. -/
theorem processRule_dropPaths (ns ns1 : Namespace) (rule : IngressRule)
    (keep : HTTPIngressPath → Bool)
    (hn : ns1.Name = ns.Name) (hs : ns1.Services = ns.Services) (hp : ns1.Pods = ns.Pods)
    (hnoop : ∀ b p, p ∈ rule.paths → keep p = false → processPath ns rule b p = b)
    (b : Buffers) :
    processRule ns1 b
        { rule with HTTP := rule.HTTP.map (fun http => { Paths := http.Paths.filter keep }) } =
      processRule ns b rule := by
  unfold processRule
  split
  · rfl
  · cases hh : rule.HTTP with
    | none => rfl
    | some http =>
      simp only [Option.map_some']
      have hcongr : ∀ b p,
          processPath ns1
            { Host := rule.Host, HTTP := some { Paths := http.Paths.filter keep } } b p =
          processPath ns rule b p :=
        fun b p => processPath_congr ns ns1 rule _ hn hs hp rfl b p
      rw [List.foldl_ext _ (processPath ns rule) _ (fun b p _ => hcongr b p)]
      apply foldl_filter_noop
      intro b p hp1 hk
      exact hnoop b p (by simp only [IngressRule.paths, hh]; exact hp1) hk

theorem processNamespace_dropPaths
    (drop : Namespace → Ingress → IngressRule → HTTPIngressPath → Bool) (ns : Namespace)
    (hdrop : ∀ f ∈ ns.Ingresses, ∀ r ∈ f.2.Rules, ∀ p ∈ r.paths,
      drop ns f.2 r p = true → mapGet ns.Services p.Backend.ServiceName = none)
    (b : Buffers) :
    processNamespace b (dropPathsNamespace drop ns) = processNamespace b ns := by
  unfold processNamespace
  have hw : (dropPathsNamespace drop ns).Watch = ns.Watch := rfl
  rw [hw]
  split
  · rfl
  · simp only [dropPathsNamespace, List.foldl_map]
    apply List.foldl_ext
    intro b f hf
    simp only [processIngress, List.foldl_map]
    apply List.foldl_ext
    intro b r hr
    refine processRule_dropPaths ns _ r (fun p => !drop ns f.2 r p) rfl rfl rfl ?_ b
    intro b p hp hk
    have hd : drop ns f.2 r p = true := by simpa using hk
    have hnone := hdrop f hf r hr p hp hd
    unfold processPath
    rw [hnone]

theorem buildBuffers_dropPaths
    (drop : Namespace → Ingress → IngressRule → HTTPIngressPath → Bool)
    (c : HAProxyController)
    (hdrop : ∀ e ∈ c.Namespaces, ∀ f ∈ e.2.Ingresses, ∀ r ∈ f.2.Rules, ∀ p ∈ r.paths,
      drop e.2 f.2 r p = true → mapGet e.2.Services p.Backend.ServiceName = none) :
    buildBuffers (dropPaths drop c) = buildBuffers c := by
  simp only [buildBuffers, dropPaths, List.foldl_map]
  apply List.foldl_ext
  intro b e he
  exact processNamespace_dropPaths drop e.2 (hdrop e he) b

/-- C8: a path whose service name is not a key of its namespace's service map
leaves the buffers as they are (no `use_backend` directive, no backend
section), and the document generated from a store equals the one generated
from the same store without any chosen set of such unresolved paths, so what
is produced for every other path is unaffected. -/
theorem unresolved_path_skipped (getGlobal getDefault : String)
    (drop : Namespace → Ingress → IngressRule → HTTPIngressPath → Bool)
    (c : HAProxyController)
    (hdrop : ∀ e ∈ c.Namespaces, ∀ f ∈ e.2.Ingresses, ∀ r ∈ f.2.Rules, ∀ p ∈ r.paths,
      drop e.2 f.2 r p = true → mapGet e.2.Services p.Backend.ServiceName = none) :
    (∀ e ∈ c.Namespaces, ∀ f ∈ e.2.Ingresses, ∀ r ∈ f.2.Rules, ∀ p ∈ r.paths,
      drop e.2 f.2 r p = true → ∀ b, processPath e.2 r b p = b) ∧
    buildBuffers (dropPaths drop c) = buildBuffers c ∧
    UpdateHAProxy getGlobal getDefault (dropPaths drop c) =
      UpdateHAProxy getGlobal getDefault c := by
  refine ⟨?_, buildBuffers_dropPaths drop c hdrop, ?_⟩
  · intro e he f hf r hr p hp hd b
    unfold processPath
    rw [hdrop e he f hf r hr p hp hd]
  · simp [UpdateHAProxy, buildBuffers_dropPaths drop c hdrop]

/-- C8 at the store of scenario 3: without the path to the missing service
`api` the document is the same. -/
theorem unresolved_path_skipped_witness :
    (dropPaths dropApi storeMissingService ≠ storeMissingService) ∧
    UpdateHAProxy "" "" (dropPaths dropApi storeMissingService) =
      UpdateHAProxy "" "" storeMissingService :=
  ⟨by decide,
    (unresolved_path_skipped "" "" dropApi storeMissingService (by decide)).2.2⟩

/-! ### When the builder completes -/

theorem foldl_applyVisit_panicked_iff (l : List Visit) (b : Buffers) :
    (l.foldl applyVisit b).panicked = true ↔
      b.panicked = true ∨ ∃ ns rule, Visit.nilHTTP ns rule ∈ l := by
  induction l generalizing b with
  | nil => simp
  | cons v l ih =>
    simp only [List.foldl_cons, ih, List.mem_cons]
    cases hp : b.panicked with
    | true =>
      have hv : applyVisit b v = b := by simp [applyVisit, hp]
      simp [hv, hp]
    | false =>
      cases v with
      | rule ns rule =>
        have hv : (applyVisit b (.rule ns rule)).panicked = false := by
          simp [applyVisit, hp]
        simp [hv]
      | nilHTTP ns rule =>
        have hv : (applyVisit b (.nilHTTP ns rule)).panicked = true := by
          simp [applyVisit, hp]
        simp only [hv, true_or, Bool.false_eq_true, false_or, true_iff]
        exact ⟨ns, rule, Or.inl rfl⟩
      | path ns rule path =>
        have hv : (applyVisit b (.path ns rule path)).panicked = false := by
          simp [applyVisit, hp, processPath_panicked]
        simp [hv]

theorem mem_visitsOfRule_nilHTTP (ns ns1 : Namespace) (rule rule1 : IngressRule) :
    Visit.nilHTTP ns rule ∈ visitsOfRule ns1 rule1 ↔
      ns = ns1 ∧ rule = rule1 ∧ rule1.HTTP = none := by
  unfold visitsOfRule
  cases hh : rule1.HTTP with
  | none =>
    simp only [List.mem_cons, and_true]
    constructor
    · rintro (h | h | h)
      · cases h
      · injection h with h1 h2
        exact ⟨h1, h2⟩
      · cases h
    · rintro ⟨rfl, rfl⟩
      exact Or.inr (Or.inl rfl)
  | some http =>
    simp only [List.mem_cons, List.mem_map]
    constructor
    · rintro (h | ⟨p, _, h⟩)
      · cases h
      · cases h
    · rintro ⟨_, _, h⟩
      cases h

theorem mem_visits_nilHTTP (c : HAProxyController) (ns : Namespace) (rule : IngressRule) :
    Visit.nilHTTP ns rule ∈ visits c ↔
      (∃ nk, (nk, ns) ∈ c.Namespaces) ∧ ns.Watch = true ∧
      (∃ ik ingress, (ik, ingress) ∈ ns.Ingresses ∧ rule ∈ ingress.Rules) ∧
      rule.HTTP = none := by
  constructor
  · intro h
    simp only [visits, List.mem_flatMap] at h
    obtain ⟨⟨nk, ns1⟩, hns, h⟩ := h
    unfold visitsOfNamespace at h
    split at h
    · simp at h
    · rename_i hw
      simp only [List.mem_flatMap] at h
      obtain ⟨⟨ik, ing⟩, hing, h⟩ := h
      simp only [visitsOfIngress, List.mem_flatMap] at h
      obtain ⟨r, hr, h⟩ := h
      obtain ⟨h1, h2, hp⟩ := (mem_visitsOfRule_nilHTTP _ _ _ _).1 h
      subst h1 h2
      exact ⟨⟨nk, hns⟩, by simpa using hw, ⟨ik, ing, hing, hr⟩, hp⟩
  · rintro ⟨⟨nk, hns⟩, hw, ⟨ik, ing, hing, hr⟩, hp⟩
    simp only [visits, List.mem_flatMap]
    refine ⟨(nk, ns), hns, ?_⟩
    simp only [visitsOfNamespace, hw, Bool.true_eq_false, if_false, List.mem_flatMap]
    refine ⟨(ik, ing), hing, ?_⟩
    simp only [visitsOfIngress, List.mem_flatMap]
    exact ⟨rule, hr, (mem_visitsOfRule_nilHTTP _ _ _ _).2 ⟨rfl, rfl, hp⟩⟩

/-- The loops of `UpdateHAProxy` run to their end exactly when no rule that
they read has a nil `HTTP`. -/
theorem buildBuffers_panicked_iff (c : HAProxyController) :
    (buildBuffers c).panicked = false ↔ HTTPPresent c := by
  have h := foldl_applyVisit_panicked_iff (visits c) Buffers.empty
  rw [← buildBuffers_eq_visits] at h
  constructor
  · intro hp e he hw f hf r hr hnone
    have : (buildBuffers c).panicked = true :=
      h.2 (Or.inr ⟨e.2, r, (mem_visits_nilHTTP c e.2 r).2
        ⟨⟨e.1, he⟩, hw, ⟨f.1, f.2, hf, hr⟩, hnone⟩⟩)
    rw [hp] at this
    cases this
  · intro hpres
    cases hp : (buildBuffers c).panicked with
    | false => rfl
    | true =>
      exfalso
      rcases h.1 hp with h0 | ⟨ns, rule, hmem⟩
      · cases h0
      · obtain ⟨⟨nk, hns⟩, hw, ⟨ik, ing, hing, hr⟩, hnone⟩ := (mem_visits_nilHTTP c ns rule).1 hmem
        exact hpres (nk, ns) hns hw (ik, ing) hing rule hr hnone

/-- When no rule read has a nil `HTTP`, `UpdateHAProxy` returns the document. -/
theorem UpdateHAProxy_of_present (getGlobal getDefault : String) (c : HAProxyController)
    (h : HTTPPresent c) :
    UpdateHAProxy getGlobal getDefault c = some (document getGlobal getDefault c) := by
  have hp := (buildBuffers_panicked_iff c).2 h
  simp [UpdateHAProxy, document, hp]

/-- When some rule read has a nil `HTTP`, `UpdateHAProxy` panics. -/
theorem UpdateHAProxy_of_absent (getGlobal getDefault : String) (c : HAProxyController)
    (h : ¬ HTTPPresent c) : UpdateHAProxy getGlobal getDefault c = none := by
  cases hp : (buildBuffers c).panicked with
  | false => exact absurd ((buildBuffers_panicked_iff c).1 hp) h
  | true => simp [UpdateHAProxy, hp]

/-- A document that `UpdateHAProxy` returns is the one assembled from the
buffers of a run that has not panicked. -/
theorem UpdateHAProxy_eq_some (getGlobal getDefault : String) (c : HAProxyController)
    (doc : String) (h : UpdateHAProxy getGlobal getDefault c = some doc) :
    doc = document getGlobal getDefault c ∧ HTTPPresent c := by
  by_cases hpres : HTTPPresent c
  · rw [UpdateHAProxy_of_present _ _ c hpres] at h
    exact ⟨(Option.some.inj h).symm, hpres⟩
  · rw [UpdateHAProxy_of_absent _ _ c hpres] at h
    cases h

/-! ### Map lookups after a write -/

theorem mapGet_mapSet_self {V : Type} (m : GoMap V) (key : String) (val : V) :
    mapGet (mapSet m key val) key = some val := by
  induction m with
  | nil => simp [mapSet, mapGet]
  | cons e m ih =>
    obtain ⟨k, v⟩ := e
    by_cases hk : k = key
    · simp [mapSet, mapGet, hk]
    · simp [mapSet, mapGet, hk, ih]

theorem mapGet_mapSet_ne {V : Type} (m : GoMap V) (key key1 : String) (val : V)
    (hne : key1 ≠ key) : mapGet (mapSet m key val) key1 = mapGet m key1 := by
  induction m with
  | nil =>
    have : ¬ key = key1 := fun h => hne h.symm
    simp [mapSet, mapGet, this]
  | cons e m ih =>
    obtain ⟨k, v⟩ := e
    by_cases hk : k = key
    · subst hk
      have : ¬ k = key1 := fun h => hne h.symm
      simp [mapSet, mapGet, this]
    · by_cases hk1 : k = key1
      · subst hk1
        simp [mapSet, mapGet, hk]
      · simp [mapSet, mapGet, hk, hk1, ih]

theorem mem_mapDelete {V : Type} (m : GoMap V) (key : String) (e : String × V)
    (h : e ∈ mapDelete m key) : e ∈ m ∧ e.1 ≠ key := by
  simpa [mapDelete, List.mem_filter] using h

theorem mapGet_eq_none_of_forall {V : Type} (m : GoMap V) (key : String)
    (h : ∀ e ∈ m, e.1 ≠ key) : mapGet m key = none := by
  induction m with
  | nil => rfl
  | cons e m ih =>
    obtain ⟨k, v⟩ := e
    have hk : ¬ k = key := h (k, v) (List.mem_cons_self _ _)
    simp only [mapGet, hk, if_false]
    exact ih (fun e he => h e (List.mem_cons_of_mem _ he))

theorem mapGet_mapDelete_self {V : Type} (m : GoMap V) (key : String) :
    mapGet (mapDelete m key) key = none :=
  mapGet_eq_none_of_forall _ _ (fun e he => (mem_mapDelete m key e he).2)

/-- With unique keys, the only binding of `key` after `m[key] = val` is the new
one. -/
theorem mem_mapSet_key {V : Type} (m : GoMap V) (key : String) (val : V)
    (hnd : (mapKeys m).Nodup) (e : String × V) (he : e ∈ mapSet m key val)
    (hk : e.1 = key) : e.2 = val := by
  induction m with
  | nil =>
    simp only [mapSet, List.mem_singleton] at he
    rw [he]
  | cons e1 m ih =>
    obtain ⟨k, v⟩ := e1
    simp only [mapKeys, List.map_cons, List.nodup_cons] at hnd
    by_cases hkk : k = key
    · simp only [mapSet, hkk, if_true] at he
      rcases List.mem_cons.1 he with he | he
      · rw [he]
      · exfalso
        apply hnd.1
        rw [hkk, ← hk]
        exact List.mem_map_of_mem Prod.fst he
    · simp only [mapSet, hkk, if_false] at he
      rcases List.mem_cons.1 he with he | he
      · exfalso
        apply hkk
        rw [← hk, he]
      · exact ih hnd.2 he

theorem mem_mapSet {V : Type} (m : GoMap V) (key : String) (val : V) (e : String × V)
    (he : e ∈ mapSet m key val) : e ∈ m ∨ e = (key, val) := by
  induction m with
  | nil =>
    simp only [mapSet, List.mem_singleton] at he
    exact Or.inr he
  | cons e1 m ih =>
    obtain ⟨k, v⟩ := e1
    by_cases hk : k = key
    · simp only [mapSet, hk, if_true] at he
      rcases List.mem_cons.1 he with he | he
      · exact Or.inr he
      · exact Or.inl (List.mem_cons_of_mem _ he)
    · simp only [mapSet, hk, if_false] at he
      rcases List.mem_cons.1 he with he | he
      · exact Or.inl (he ▸ List.mem_cons_self _ _)
      · rcases ih he with h | h
        · exact Or.inl (List.mem_cons_of_mem _ h)
        · exact Or.inr h

/-! ### `GetNamespace` -/

theorem GetNamespace_lookup (c : HAProxyController) (name : String) :
    mapGet (GetNamespace c name).1.Namespaces name = some (GetNamespace c name).2 := by
  unfold GetNamespace
  cases h : mapGet c.Namespaces name with
  | none => simp [mapGet_mapSet_self]
  | some ns => simpa using h

theorem GetNamespace_lookup_ne (c : HAProxyController) (name name1 : String)
    (hne : name1 ≠ name) :
    mapGet (GetNamespace c name).1.Namespaces name1 = mapGet c.Namespaces name1 := by
  unfold GetNamespace
  cases h : mapGet c.Namespaces name with
  | none => simp [mapGet_mapSet_ne _ _ _ _ hne]
  | some ns => rfl

theorem GetNamespace_configMap (c : HAProxyController) (name : String) :
    (GetNamespace c name).1.ConfigMap = c.ConfigMap := by
  unfold GetNamespace
  cases h : mapGet c.Namespaces name <;> rfl

theorem GetNamespace_pods (c : HAProxyController) (name key : String) :
    mapGet (GetNamespace c name).2.Pods key = getPod c name key := by
  unfold GetNamespace getPod
  cases h : mapGet c.Namespaces name with
  | none => simp [NewNamespace, mapGet]
  | some ns => simp

theorem getPod_putNamespace (c : HAProxyController) (name : String) (ns : Namespace)
    (n k : String) :
    getPod (putNamespace c name ns) n k =
      if n = name then mapGet ns.Pods k else getPod c n k := by
  unfold getPod putNamespace
  by_cases hn : n = name
  · subst hn
    simp [mapGet_mapSet_self]
  · simp [mapGet_mapSet_ne _ _ _ _ hn, hn]

theorem getService_putNamespace (c : HAProxyController) (name : String) (ns : Namespace)
    (k : String) : getService (putNamespace c name ns) name k = mapGet ns.Services k := by
  simp [getService, putNamespace, mapGet_mapSet_self]

theorem getIngress_putNamespace (c : HAProxyController) (name : String) (ns : Namespace)
    (k : String) : getIngress (putNamespace c name ns) name k = mapGet ns.Ingresses k := by
  simp [getIngress, putNamespace, mapGet_mapSet_self]

/-! ### Stores whose rules all carry `HTTP` -/

theorem HTTPPresent_GetNamespace (c : HAProxyController) (name : String)
    (h : HTTPPresent c) :
    HTTPPresent (GetNamespace c name).1 ∧
      ((GetNamespace c name).2.Watch = true →
        ∀ f ∈ (GetNamespace c name).2.Ingresses, ∀ r ∈ f.2.Rules, r.HTTP ≠ none) := by
  unfold GetNamespace
  cases hg : mapGet c.Namespaces name with
  | some ns => exact ⟨h, h (name, ns) (mapGet_mem _ _ _ hg)⟩
  | none =>
    refine ⟨?_, ?_⟩
    · intro e he
      rcases mem_mapSet _ _ _ e he with he | he
      · exact h e he
      · subst he
        intro _ f hf
        simp [NewNamespace] at hf
    · intro _ f hf
      simp [NewNamespace] at hf

theorem HTTPPresent_putNamespace (c : HAProxyController) (name : String) (ns : Namespace)
    (h : HTTPPresent c)
    (hns : ns.Watch = true → ∀ f ∈ ns.Ingresses, ∀ r ∈ f.2.Rules, r.HTTP ≠ none) :
    HTTPPresent (putNamespace c name ns) := by
  intro e he
  rcases mem_mapSet _ _ _ e he with he | he
  · exact h e he
  · subst he
    exact hns

/-- Registering a pod keeps every rule's `HTTP` in place. -/
theorem HTTPPresent_setPod (c : HAProxyController) (name : String) (pods : GoMap Pod)
    (h : HTTPPresent c) :
    HTTPPresent (putNamespace (GetNamespace c name).1 name
      { (GetNamespace c name).2 with Pods := pods }) :=
  HTTPPresent_putNamespace _ _ _ (HTTPPresent_GetNamespace c name h).1
    (HTTPPresent_GetNamespace c name h).2

/-! ### C3 -/

/-- C3: on the first event being a MODIFY of the unknown pod `web-a`,
`SyncData` registers the pod (line 181) and then panics on `oldPod.Status`
(line 182), `oldPod` being nil; the claim says that the pod is not inserted
and that the event is processed without failure. -/
theorem pod_modify_unknown_inserts_then_panics :
    SyncData "" "" [.POD .Modified scenarioPodA] =
      .error
        { c :=
            { Namespaces :=
                [("default", { NewNamespace "default" with Pods := [("web-a", scenarioPodA)] })]
              ConfigMap := [] }
          hadChanges := false
          generated := [] } :=
  rfl

/-- In any state, a MODIFY of a pod that is not registered ends in a panic,
with the pod registered. -/
theorem pod_modify_unknown_panics (getGlobal getDefault : String) (s : SyncState) (p : Pod)
    (h : getPod s.c p.Namespace p.Name = none) :
    ∃ s1, syncJob getGlobal getDefault s (.POD .Modified p) = .error s1 ∧
      getPod s1.c p.Namespace p.Name = some p := by
  have hold : mapGet (GetNamespace s.c p.Namespace).2.Pods p.Name = none := by
    rw [GetNamespace_pods]; exact h
  refine ⟨_, by simp only [syncJob, hold]; rfl, ?_⟩
  simp [getPod_putNamespace, mapGet_mapSet_self]

/-! ### C4 -/

/-- C4, as stated, fails: in the initial state a MODIFY event with the service
`web` registers nothing and leaves `hadChanges` false. -/
theorem service_modify_does_not_upsert :
    ¬ ServiceModifyUpserts "" "" SyncState.init scenarioService := by
  rintro ⟨s1, h, -, hd⟩
  have h0 : syncJob "" "" SyncState.init (.SERVICE .Modified scenarioService) =
      .ok SyncState.init := rfl
  rw [h0] at h
  injection h with h
  rw [← h] at hd
  exact absurd hd (by decide)

/-- C4, amended: in every state a MODIFY event carrying a Service, Ingress or
ConfigMap payload leaves the state (store and `hadChanges`) as it is; an ADD
event with that payload registers the payload under the entity's key
(namespace and name, or configmap name) and sets `hadChanges`. -/
theorem modify_ignored_add_upserts (getGlobal getDefault : String) (s : SyncState)
    (svc : Service) (ingress : Ingress) (cm : ConfigMap) :
    syncJob getGlobal getDefault s (.SERVICE .Modified svc) = .ok s ∧
    syncJob getGlobal getDefault s (.INGRESS .Modified ingress) = .ok s ∧
    syncJob getGlobal getDefault s (.CONFIGMAP .Modified cm) = .ok s ∧
    (∃ s1, syncJob getGlobal getDefault s (.SERVICE .Added svc) = .ok s1 ∧
      getService s1.c svc.Namespace svc.Name = some svc ∧ s1.hadChanges = true) ∧
    (∃ s1, syncJob getGlobal getDefault s (.INGRESS .Added ingress) = .ok s1 ∧
      getIngress s1.c ingress.Namespace ingress.Name = some ingress ∧
      s1.hadChanges = true) ∧
    (∃ s1, syncJob getGlobal getDefault s (.CONFIGMAP .Added cm) = .ok s1 ∧
      mapGet s1.c.ConfigMap cm.Name = some cm ∧ s1.hadChanges = true) := by
  refine ⟨rfl, rfl, rfl, ⟨_, rfl, ?_, rfl⟩, ⟨_, rfl, ?_, rfl⟩, ⟨_, rfl, ?_, rfl⟩⟩
  · simp [getService_putNamespace, mapGet_mapSet_self]
  · simp [getIngress_putNamespace, mapGet_mapSet_self]
  · simp [mapGet_mapSet_self]

/-! ### C5 -/

/-- C5, as stated, fails: in the state reached by adding the service `web` and
one tick, a DELETE event for `web` leaves the service registered and
`hadChanges` false. -/
theorem service_delete_does_not_remove :
    SyncData "" "" [.SERVICE .Added scenarioService, .COMMAND .Added] =
      .ok stateServiceSynced ∧
    getService stateServiceSynced.c "default" "web" = some scenarioService ∧
    ¬ ServiceDeleteRemoves "" "" stateServiceSynced scenarioService := by
  refine ⟨rfl, by decide, ?_⟩
  rintro ⟨s1, h, -, hd⟩
  have h0 : syncJob "" "" stateServiceSynced (.SERVICE .Deleted scenarioService) =
      .ok stateServiceSynced := rfl
  rw [h0] at h
  injection h with h
  rw [← h] at hd
  exact absurd hd (by decide)

/-- C5, amended: in every state a DELETE event on a Service or Ingress leaves
the state as it is: the entity stays registered and `hadChanges` keeps its
value. -/
theorem service_ingress_delete_ignored (getGlobal getDefault : String) (s : SyncState)
    (svc : Service) (ingress : Ingress) :
    syncJob getGlobal getDefault s (.SERVICE .Deleted svc) = .ok s ∧
    syncJob getGlobal getDefault s (.INGRESS .Deleted ingress) = .ok s :=
  ⟨rfl, rfl⟩

/-! ### Pod events -/

theorem getPod_GetNamespace (c : HAProxyController) (name n k : String) :
    getPod (GetNamespace c name).1 n k = getPod c n k := by
  by_cases hn : n = name
  · subst hn
    simp only [getPod, GetNamespace_lookup, Option.bind_some]
    exact GetNamespace_pods c n k
  · simp only [getPod, GetNamespace_lookup_ne c name n hn]

/-- A pod ADD registers the pod under its namespace and name, leaves every
other pod lookup as it was, sets `hadChanges` and generates nothing; it brings
no rule into the store. -/
theorem syncJob_pod_added (getGlobal getDefault : String) (s : SyncState) (p : Pod) :
    ∃ c1, syncJob getGlobal getDefault s (.POD .Added p) =
        .ok { c := c1, hadChanges := true, generated := s.generated } ∧
      (∀ n k, getPod c1 n k =
        if podKeyIs n k p = true then some p else getPod s.c n k) ∧
      (HTTPPresent s.c → HTTPPresent c1) := by
  refine ⟨putNamespace (GetNamespace s.c p.Namespace).1 p.Namespace
    { (GetNamespace s.c p.Namespace).2 with
      Pods := mapSet (GetNamespace s.c p.Namespace).2.Pods p.Name p }, rfl, ?_,
    HTTPPresent_setPod s.c p.Namespace _⟩
  intro n k
  rw [getPod_putNamespace]
  by_cases hn : n = p.Namespace
  · subst hn
    by_cases hk : k = p.Name
    · subst hk
      simp [podKeyIs, mapGet_mapSet_self]
    · have hk1 : ¬ p.Name = k := fun h => hk h.symm
      simp [podKeyIs, hk1, mapGet_mapSet_ne _ _ _ _ hk, GetNamespace_pods]
  · have hn1 : ¬ p.Namespace = n := fun h => hn h.symm
    simp [podKeyIs, hn, hn1, getPod_GetNamespace]

theorem runJobs_append (getGlobal getDefault : String) (s : SyncState)
    (l1 l2 : List SyncDataEvent) :
    runJobs getGlobal getDefault s (l1 ++ l2) =
      match runJobs getGlobal getDefault s l1 with
      | .ok s1 => runJobs getGlobal getDefault s1 l2
      | .error s1 => .error s1 := by
  induction l1 generalizing s with
  | nil => rfl
  | cons e l1 ih =>
    simp only [List.cons_append, runJobs]
    cases syncJob getGlobal getDefault s e with
    | ok s1 => exact ih s1
    | error s1 => rfl

/-- A run of pod ADD events never generates a document; afterwards each
(namespace, name) holds the last pod added under it, or what it held before,
and the store holds no rule that it did not hold before. -/
theorem runJobs_pod_adds (getGlobal getDefault : String) (pods : List Pod) (s : SyncState) :
    ∃ c1, runJobs getGlobal getDefault s (pods.map (.POD .Added)) =
        .ok { c := c1, hadChanges := s.hadChanges || !pods.isEmpty,
              generated := s.generated } ∧
      (∀ n k, getPod c1 n k = ((pods.reverse.find? (podKeyIs n k)).or (getPod s.c n k))) ∧
      (HTTPPresent s.c → HTTPPresent c1) := by
  induction pods generalizing s with
  | nil => exact ⟨s.c, by simp [runJobs], by simp, id⟩
  | cons p pods ih =>
    obtain ⟨c1, hstep, hget1, hpres1⟩ := syncJob_pod_added getGlobal getDefault s p
    obtain ⟨c2, hrun, hget2, hpres2⟩ :=
      ih { c := c1, hadChanges := true, generated := s.generated }
    refine ⟨c2, ?_, ?_, fun h => hpres2 (hpres1 h)⟩
    · simp only [List.map_cons, runJobs, hstep, hrun]
      simp
    · intro n k
      rw [hget2 n k, List.reverse_cons, List.find?_append]
      simp only [hget1 n k]
      cases pods.reverse.find? (podKeyIs n k) with
      | some q => rfl
      | none =>
        by_cases hp : podKeyIs n k p = true
        · simp [List.find?, hp]
        · simp [List.find?, hp]

/-! ### States with nothing pending -/

/-- One event keeps this: while `hadChanges` is false, no rule of a watched
namespace has a nil `HTTP`. The flag is cleared only by a completed
`UpdateHAProxy`, and every event that can bring a rule in sets it. -/
theorem syncJob_clean_present (getGlobal getDefault : String) (s s1 : SyncState)
    (e : SyncDataEvent) (hinv : s.hadChanges = false → HTTPPresent s.c)
    (h : syncJob getGlobal getDefault s e = .ok s1) :
    s1.hadChanges = false → HTTPPresent s1.c := by
  have hsame : ∀ {s2 : SyncState}, (Except.ok s : Except SyncState SyncState) = .ok s2 →
      s2.hadChanges = false → HTTPPresent s2.c := by
    intro s2 h2
    rw [← Except.ok.inj h2]
    exact hinv
  have hset : ∀ {c2 : HAProxyController} {s2 : SyncState},
      (Except.ok { s with c := c2, hadChanges := true } : Except SyncState SyncState) =
        .ok s2 → s2.hadChanges = false → HTTPPresent s2.c := by
    intro c2 s2 h2 hf
    rw [← Except.ok.inj h2] at hf
    cases hf
  cases e with
  | COMMAND t =>
    by_cases hc : s.hadChanges = true
    · cases hu : UpdateHAProxy getGlobal getDefault s.c with
      | none =>
        simp only [syncJob, hc, if_true, hu] at h
        cases h
      | some cfg =>
        simp only [syncJob, hc, if_true, hu] at h
        rw [← Except.ok.inj h]
        intro _
        exact (UpdateHAProxy_eq_some _ _ _ _ hu).2
    · simp only [syncJob, hc, if_false] at h
      exact hsame h
  | NAMESPACE t payload =>
    cases t <;> first | exact hsame h | exact hset h
  | INGRESS t payload =>
    cases t <;> first | exact hsame h | exact hset h
  | SERVICE t payload =>
    cases t <;> first | exact hsame h | exact hset h
  | POD t payload =>
    cases t with
    | Added => exact hset h
    | Modified =>
      cases hold : mapGet (GetNamespace s.c payload.Namespace).2.Pods payload.Name with
      | none =>
        simp only [syncJob, hold] at h
        cases h
      | some old =>
        simp only [syncJob, hold] at h
        exact hset h
    | Deleted =>
      simp only [syncJob] at h
      split at h
      · rename_i cfg hu
        rw [← Except.ok.inj h]
        intro _
        exact (UpdateHAProxy_eq_some _ _ _ _ hu).2
      · cases h
    | Bookmark => exact hsame h
    | Error => exact hsame h
  | CONFIGMAP t payload =>
    cases t with
    | Added =>
      intro hf
      simp only [syncJob] at h
      rw [← Except.ok.inj h] at hf
      cases hf
    | Modified => exact hsame h
    | Deleted => exact hsame h
    | Bookmark => exact hsame h
    | Error => exact hsame h

/-- A state that `SyncData` has reached with `hadChanges` false holds no rule
with a nil `HTTP` in a watched namespace: the next `UpdateHAProxy` on it runs
to its end. -/
theorem SyncData_clean_present (getGlobal getDefault : String)
    (jobChan : List SyncDataEvent) (s : SyncState)
    (h : SyncData getGlobal getDefault jobChan = .ok s) (hclean : s.hadChanges = false) :
    HTTPPresent s.c := by
  unfold SyncData at h
  have hgen : ∀ (jobs : List SyncDataEvent) (s0 : SyncState),
      (s0.hadChanges = false → HTTPPresent s0.c) →
      runJobs getGlobal getDefault s0 jobs = .ok s →
      s.hadChanges = false → HTTPPresent s.c := by
    intro jobs
    induction jobs with
    | nil =>
      intro s0 h0 hrun
      simp only [runJobs] at hrun
      rw [← Except.ok.inj hrun]
      exact h0
    | cons e jobs ih =>
      intro s0 h0 hrun
      simp only [runJobs] at hrun
      cases hj : syncJob getGlobal getDefault s0 e with
      | ok s1 =>
        rw [hj] at hrun
        exact ih s1 (syncJob_clean_present getGlobal getDefault s0 s1 e h0 hj) hrun
      | error s1 =>
        rw [hj] at hrun
        cases hrun
  exact hgen jobChan SyncState.init
    (fun _ e he => absurd he (List.not_mem_nil e)) h hclean

/-! ### The nil `HTTP` of a host-only rule -/

/-- The loops of `UpdateHAProxy` panic on the store that holds a host-only
rule in `default`, after the ACL write of the rule. -/
theorem buildBuffers_host_only :
    buildBuffers storeHostOnly =
      { acls := ["foo.bar"], useBackend := [], backends := [], createdBackends := [],
        panicked := true } := by
  decide

/-- The ADD of an ingress with a host-only rule, the ADD of a pod and the
DELETE of that pod: `SyncData` panics inside the `UpdateHAProxy` of the DELETE,
with the pod deleted, nothing generated and `hadChanges` still set. -/
theorem SyncData_host_only_pod_delete :
    SyncData "" ""
        [.INGRESS .Added hostOnlyIngress, .POD .Added scenarioPodA,
          .POD .Deleted scenarioPodA] =
      .error { c := storeHostOnly, hadChanges := true, generated := [] } :=
  rfl

/-- The ADD of an ingress with a host-only rule and a tick: `SyncData` panics
inside the `UpdateHAProxy` of the tick. -/
theorem SyncData_host_only_tick :
    SyncData "" "" [.INGRESS .Added hostOnlyIngress, .COMMAND .Added] =
      .error { c := storeHostOnly, hadChanges := true, generated := [] } :=
  rfl

/-! ### C6 -/

/-- C6: from a state whose `hadChanges` is false, a non-empty run of pod ADD
events generates no document; the COMMAND event that follows generates exactly
one, from the store that the ADD events have left, and clears `hadChanges`. In
that store each added pod's (namespace, name) holds the pod last added under
it. A COMMAND event received while `hadChanges` is false leaves the state as it
is, generating nothing. The document is generated when no rule of a watched
namespace has a nil `HTTP` (a nil `HTTP` is dereferenced at line 251), which is
so in every state that `SyncData` reaches with `hadChanges` false. -/
theorem pod_adds_then_tick (getGlobal getDefault : String) (s : SyncState)
    (pods : List Pod) (tick : EventType) (hclean : s.hadChanges = false)
    (hne : pods ≠ []) :
    (∃ c1,
      runJobs getGlobal getDefault s (pods.map (.POD .Added)) =
        .ok { c := c1, hadChanges := true, generated := s.generated } ∧
      (HTTPPresent s.c →
        runJobs getGlobal getDefault s (pods.map (.POD .Added) ++ [.COMMAND tick]) =
          .ok { c := c1, hadChanges := false,
                generated := s.generated ++ [document getGlobal getDefault c1] }) ∧
      ∀ p ∈ pods, ∃ q ∈ pods, q.Namespace = p.Namespace ∧ q.Name = p.Name ∧
        pods.reverse.find? (podKeyIs p.Namespace p.Name) = some q ∧
        getPod c1 p.Namespace p.Name = some q) ∧
    syncJob getGlobal getDefault s (.COMMAND tick) = .ok s ∧
    (∀ jobChan, SyncData getGlobal getDefault jobChan = .ok s → HTTPPresent s.c) := by
  refine ⟨?_, ?_, fun jobChan h => SyncData_clean_present _ _ jobChan s h hclean⟩
  · obtain ⟨c1, hrun, hget, hpres⟩ := runJobs_pod_adds getGlobal getDefault pods s
    have hflag : (s.hadChanges || !pods.isEmpty) = true := by
      cases pods with
      | nil => exact absurd rfl hne
      | cons p pods => simp
    rw [hflag] at hrun
    refine ⟨c1, hrun, ?_, ?_⟩
    · intro hs
      rw [runJobs_append, hrun]
      simp [runJobs, syncJob, UpdateHAProxy_of_present _ _ c1 (hpres hs)]
    · intro p hp
      have hfind : ∃ q, pods.reverse.find? (podKeyIs p.Namespace p.Name) = some q := by
        cases hf : pods.reverse.find? (podKeyIs p.Namespace p.Name) with
        | some q => exact ⟨q, rfl⟩
        | none =>
          exfalso
          have := List.find?_eq_none.1 hf p (List.mem_reverse.2 hp)
          simp [podKeyIs] at this
      obtain ⟨q, hq⟩ := hfind
      have hkey := List.find?_some hq
      simp only [podKeyIs, Bool.and_eq_true, beq_iff_eq] at hkey
      refine ⟨q, List.mem_reverse.1 (List.mem_of_find?_eq_some hq), hkey.1, hkey.2, hq, ?_⟩
      rw [hget, hq]
      rfl
  · simp [syncJob, hclean]

/-- C6 at scenario 5 in small: two pod ADD events and a tick, from the initial
state. -/
theorem pod_adds_then_tick_witness :
    ∃ c1,
      runJobs "" "" SyncState.init
          ([scenarioPodA, scenarioPodB].map (.POD .Added) ++ [.COMMAND .Added]) =
        .ok { c := c1, hadChanges := false,
              generated := SyncState.init.generated ++ [document "" "" c1] } ∧
      getPod c1 "default" "web-a" = some scenarioPodA ∧
      getPod c1 "default" "web-b" = some scenarioPodB := by
  obtain ⟨⟨c1, -, hrun, hpods⟩, -, hreach⟩ :=
    pod_adds_then_tick "" "" SyncState.init [scenarioPodA, scenarioPodB] .Added rfl
      (by decide)
  refine ⟨c1, hrun (hreach [] rfl), ?_, ?_⟩
  · obtain ⟨q, -, -, -, hq, hget⟩ := hpods scenarioPodA (by decide)
    have : q = scenarioPodA := by
      have h0 : [scenarioPodA, scenarioPodB].reverse.find?
          (podKeyIs scenarioPodA.Namespace scenarioPodA.Name) = some scenarioPodA := by
        decide
      rw [h0] at hq
      injection hq with hq
      exact hq.symm
    rw [← this]
    exact hget
  · obtain ⟨q, -, -, -, hq, hget⟩ := hpods scenarioPodB (by decide)
    have : q = scenarioPodB := by
      have h0 : [scenarioPodA, scenarioPodB].reverse.find?
          (podKeyIs scenarioPodB.Namespace scenarioPodB.Name) = some scenarioPodB := by
        decide
      rw [h0] at hq
      injection hq with hq
      exact hq.symm
    rw [← this]
    exact hget

/-! ### The keys of the namespace map stay unique -/

theorem mapKeys_mapSet {V : Type} (m : GoMap V) (key : String) (val : V) :
    mapKeys (mapSet m key val) =
      if key ∈ mapKeys m then mapKeys m else mapKeys m ++ [key] := by
  induction m with
  | nil => simp [mapSet, mapKeys]
  | cons e m ih =>
    obtain ⟨k, v⟩ := e
    simp only [mapKeys] at ih
    by_cases hk : k = key
    · simp [mapSet, mapKeys, hk]
    · have hk1 : ¬ key = k := fun h => hk h.symm
      by_cases hm : key ∈ m.map Prod.fst
      · simp only [mapSet, hk, if_false, mapKeys, List.map_cons, ih, hm, if_true,
          List.mem_cons, or_true]
      · simp only [mapSet, hk, if_false, mapKeys, List.map_cons, ih, hm, List.mem_cons,
          hk1, or_self, List.cons_append]

theorem nodup_mapKeys_mapSet {V : Type} (m : GoMap V) (key : String) (val : V)
    (h : (mapKeys m).Nodup) : (mapKeys (mapSet m key val)).Nodup := by
  rw [mapKeys_mapSet]
  split
  · exact h
  · rename_i hk
    rw [List.nodup_append]
    refine ⟨h, List.nodup_singleton _, ?_⟩
    intro a ha ha1
    rw [List.mem_singleton] at ha1
    exact hk (ha1 ▸ ha)

theorem nodup_GetNamespace (c : HAProxyController) (name : String)
    (h : (mapKeys c.Namespaces).Nodup) :
    (mapKeys (GetNamespace c name).1.Namespaces).Nodup := by
  unfold GetNamespace
  cases mapGet c.Namespaces name with
  | none => exact nodup_mapKeys_mapSet _ _ _ h
  | some ns => exact h

/-- One event keeps the keys of the namespace map unique, whether it is
processed or panics. -/
theorem syncJob_namespace_keys (getGlobal getDefault : String) (s : SyncState)
    (e : SyncDataEvent) (h : (mapKeys s.c.Namespaces).Nodup) :
    (mapKeys (reached (syncJob getGlobal getDefault s e)).c.Namespaces).Nodup := by
  have hput : ∀ name ns, (mapKeys (putNamespace (GetNamespace s.c name).1 name
      ns).Namespaces).Nodup :=
    fun name ns => nodup_mapKeys_mapSet _ _ _ (nodup_GetNamespace s.c name h)
  cases e with
  | COMMAND t =>
    by_cases hc : s.hadChanges = true
    · cases hu : UpdateHAProxy getGlobal getDefault s.c with
      | none => simpa [syncJob, hc, hu, reached] using h
      | some cfg => simpa [syncJob, hc, hu, reached] using h
    · simpa [syncJob, hc, reached] using h
  | NAMESPACE t payload =>
    cases t <;> first | exact h | exact nodup_GetNamespace s.c payload.Name h
  | INGRESS t payload =>
    cases t <;> first | exact h | exact hput _ _
  | SERVICE t payload =>
    cases t <;> first | exact h | exact hput _ _
  | POD t payload =>
    cases t with
    | Added => exact hput _ _
    | Modified =>
      cases hold : mapGet (GetNamespace s.c payload.Namespace).2.Pods payload.Name with
      | none =>
        simp only [syncJob, hold, reached]
        exact hput _ _
      | some old =>
        simp only [syncJob, hold, reached]
        exact hput _ _
    | Deleted =>
      cases hold : mapGet (GetNamespace s.c payload.Namespace).2.Pods payload.Name with
      | none =>
        simp only [syncJob, hold]
        cases UpdateHAProxy getGlobal getDefault (GetNamespace s.c payload.Namespace).1 with
        | none => exact nodup_GetNamespace s.c payload.Namespace h
        | some cfg => exact nodup_GetNamespace s.c payload.Namespace h
      | some old =>
        simp only [syncJob, hold]
        cases UpdateHAProxy getGlobal getDefault
            (putNamespace (GetNamespace s.c payload.Namespace).1 payload.Namespace
              { (GetNamespace s.c payload.Namespace).2 with
                Pods := mapDelete (GetNamespace s.c payload.Namespace).2.Pods
                  payload.Name }) with
        | none => exact hput _ _
        | some cfg => exact hput _ _
    | Bookmark => exact h
    | Error => exact h
  | CONFIGMAP t payload =>
    cases t <;> exact h

/-- Every state that `SyncData` reaches has unique keys in its namespace map. -/
theorem SyncData_namespace_keys (getGlobal getDefault : String)
    (jobChan : List SyncDataEvent) :
    (mapKeys (reached (SyncData getGlobal getDefault jobChan)).c.Namespaces).Nodup := by
  unfold SyncData
  have hgen : ∀ (jobs : List SyncDataEvent) (s : SyncState),
      (mapKeys s.c.Namespaces).Nodup →
      (mapKeys (reached (runJobs getGlobal getDefault s jobs)).c.Namespaces).Nodup := by
    intro jobs
    induction jobs with
    | nil => intro s h; exact h
    | cons e jobs ih =>
      intro s h
      have hstep := syncJob_namespace_keys getGlobal getDefault s e h
      simp only [runJobs]
      cases hj : syncJob getGlobal getDefault s e with
      | ok s1 =>
        rw [hj] at hstep
        exact ih s1 hstep
      | error s1 =>
        rw [hj] at hstep
        exact hstep
  exact hgen jobChan SyncState.init (by simp [SyncState.init, mapKeys])

/-! ### C7 -/

/-- C7: in every state, a DELETE event for a registered pod runs
`UpdateHAProxy` within the same step (no COMMAND event is involved), on a store
in which the pod's (namespace, name) is no longer registered; `hadChanges`
stays as it was. When no rule of a watched namespace has a nil `HTTP`, the
step ends with the document of that store generated; when one has, the step
ends in the panic of line 251, in that store, with nothing generated. Deleting
the pod brings no such rule in. The keys of the namespace map being unique, as
in any Go map, the store has no binding of the pod's (namespace, name) left,
and every server line that the builder writes comes from a running pod bound
under another (namespace, name). -/
theorem pod_delete_rebuilds_now (getGlobal getDefault : String) (s : SyncState)
    (p old : Pod) (hreg : getPod s.c p.Namespace p.Name = some old) :
    ∃ c1,
      (HTTPPresent c1 →
        syncJob getGlobal getDefault s (.POD .Deleted p) =
          .ok { c := c1, hadChanges := s.hadChanges,
                generated := s.generated ++ [document getGlobal getDefault c1] }) ∧
      (¬ HTTPPresent c1 →
        syncJob getGlobal getDefault s (.POD .Deleted p) =
          .error { c := c1, hadChanges := s.hadChanges, generated := s.generated }) ∧
      (HTTPPresent s.c → HTTPPresent c1) ∧
      getPod c1 p.Namespace p.Name = none ∧
      ((mapKeys s.c.Namespaces).Nodup →
        (∀ e ∈ c1.Namespaces, ∀ f ∈ e.2.Pods, ¬ (e.1 = p.Namespace ∧ f.1 = p.Name)) ∧
        (∀ sec ∈ sections (buildBuffers c1).backends, ∀ l ∈ sec.servers,
          ∃ e ∈ c1.Namespaces, ∃ f ∈ e.2.Pods,
            ¬ (e.1 = p.Namespace ∧ f.1 = p.Name) ∧ f.2.Status = PodRunning ∧
              l.ip = f.2.IP)) := by
  cases hns : mapGet s.c.Namespaces p.Namespace with
  | none => simp [getPod, hns] at hreg
  | some ns =>
    have hold : mapGet ns.Pods p.Name = some old := by
      simpa [getPod, hns] using hreg
    have hG : GetNamespace s.c p.Namespace = (s.c, ns) := by
      simp [GetNamespace, hns]
    refine ⟨putNamespace s.c p.Namespace { ns with Pods := mapDelete ns.Pods p.Name },
      ?_, ?_, ?_, ?_, ?_⟩
    · intro hpres
      simp only [syncJob, hG, hold, UpdateHAProxy_of_present _ _ _ hpres]
    · intro habs
      simp only [syncJob, hG, hold, UpdateHAProxy_of_absent _ _ _ habs]
    · intro hpres
      have h := HTTPPresent_setPod s.c p.Namespace (mapDelete ns.Pods p.Name) hpres
      rw [hG] at h
      exact h
    · simp [getPod_putNamespace, mapGet_mapDelete_self]
    · intro hkeys
      have hleft : ∀ e ∈ (putNamespace s.c p.Namespace
            { ns with Pods := mapDelete ns.Pods p.Name }).Namespaces,
          ∀ f ∈ e.2.Pods, ¬ (e.1 = p.Namespace ∧ f.1 = p.Name) := by
        intro e he f hf hboth
        have h2 := mem_mapSet_key s.c.Namespaces p.Namespace _ hkeys e he hboth.1
        rw [h2] at hf
        exact (mem_mapDelete ns.Pods p.Name f hf).2 hboth.2
      refine ⟨hleft, ?_⟩
      intro sec hsec l hl
      obtain ⟨ns1, rule, path, svc, href, -, rfl⟩ := section_origin _ sec hsec
      obtain ⟨nk, hnk⟩ := href.1
      obtain ⟨k, pod, hm, hrun, -, hip, -⟩ := serverLines_sound _ _ _ _ l hl
      exact ⟨(nk, ns1), hnk, (k, pod), hm, hleft (nk, ns1) hnk (k, pod) hm, hrun, hip⟩

/-- C7 at the store of scenario 1: deleting the pod `web-b` generates a
document at once, from a store that holds no binding of the pod. -/
theorem pod_delete_rebuilds_now_witness :
    ∃ c1,
      syncJob "" "" stateScenario (.POD .Deleted scenarioPodB) =
        .ok { c := c1, hadChanges := false,
              generated := stateScenario.generated ++ [document "" "" c1] } ∧
      getPod c1 "default" "web-b" = none ∧
      (∀ e ∈ c1.Namespaces, ∀ f ∈ e.2.Pods, ¬ (e.1 = "default" ∧ f.1 = "web-b")) := by
  have hpres : HTTPPresent stateScenario.c :=
    (buildBuffers_panicked_iff stateScenario.c).1 (by decide)
  obtain ⟨c1, hstep, -, hkeep, hnone, hrest⟩ :=
    pod_delete_rebuilds_now "" "" stateScenario scenarioPodB scenarioPodB (by decide)
  exact ⟨c1, hstep (hkeep hpres), hnone, (hrest (by decide)).1⟩

/-! ### C2, witness -/

/-- C2 at the store of scenario 1: the section `default-web-80` lists the two
running pods of `web`. -/
theorem backend_servers_match_pods_witness :
    SectionServesPods
      { name := "default-web-80"
        servers := [⟨0, "10.0.0.1", "80"⟩, ⟨1, "10.0.0.2", "80"⟩] }
      scenarioNamespace scenarioService "80" := by
  have hclash : ∀ ns1 rule1 path1 svc1,
      Referenced storeScenario ns1 rule1 path1 svc1 → svc1.Selector ≠ [] →
      (useBackendOf ns1 rule1 path1).backend =
        (useBackendOf scenarioNamespace scenarioRule scenarioPath).backend →
      ns1 = scenarioNamespace ∧ svc1 = scenarioService ∧
        path1.Backend.ServicePort.String = scenarioPath.Backend.ServicePort.String := by
    rintro ns1 rule1 path1 svc1 ⟨⟨nk, hns⟩, -, ⟨ik, ing, hing, hr⟩, hp, hsvc⟩ - -
    simp only [storeScenario, List.mem_singleton, Prod.mk.injEq] at hns
    obtain ⟨-, rfl⟩ := hns
    simp only [scenarioNamespace, List.mem_singleton, Prod.mk.injEq] at hing
    obtain ⟨-, rfl⟩ := hing
    simp only [scenarioIngress, List.mem_singleton] at hr
    subst hr
    simp only [scenarioRule, IngressRule.paths, List.mem_singleton] at hp
    subst hp
    have hs : mapGet scenarioNamespace.Services scenarioPath.Backend.ServiceName =
        some scenarioService := by decide
    rw [hs] at hsvc
    injection hsvc with hsvc
    exact ⟨rfl, hsvc.symm, rfl⟩
  exact (backend_servers_match_pods storeScenario (by unfold ServicesKeyed; decide)
    scenarioNamespace scenarioRule scenarioPath scenarioService
    ⟨⟨"default", by decide⟩, rfl, ⟨"site", scenarioIngress, by decide, by decide⟩,
      by decide, by decide⟩
    (by decide) hclash).2 _ (by decide) (by decide)

/-! ### The store invariant of `SyncData` -/

theorem entryInv_NewNamespace (name : String) : EntryInv (name, NewNamespace name) := by
  refine ⟨⟨rfl, ?_, ?_, ?_⟩, ?_⟩
  · intro f hf; cases hf
  · intro f hf; cases hf
  · intro f hf; cases hf
  · simp [NewNamespace]

theorem storeInv_GetNamespace (c : HAProxyController) (name : String) (h : StoreInv c) :
    StoreInv (GetNamespace c name).1 ∧ EntryInv (name, (GetNamespace c name).2) := by
  unfold GetNamespace
  cases hns : mapGet c.Namespaces name with
  | some ns => exact ⟨h, h _ (mapGet_mem _ _ _ hns)⟩
  | none =>
    refine ⟨?_, entryInv_NewNamespace name⟩
    intro e he
    rcases mem_mapSet _ _ _ e he with he | he
    · exact h e he
    · rw [he]; exact entryInv_NewNamespace name

theorem storeInv_putNamespace (c : HAProxyController) (name : String) (ns : Namespace)
    (h : StoreInv c) (hns : EntryInv (name, ns)) : StoreInv (putNamespace c name ns) := by
  intro e he
  rcases mem_mapSet _ _ _ e he with he | he
  · exact h e he
  · rw [he]; exact hns

theorem entryInv_setPod (name : String) (ns : Namespace) (pod : Pod)
    (h : EntryInv (name, ns)) (hp : pod.Namespace = name) :
    EntryInv (name, { ns with Pods := mapSet ns.Pods pod.Name pod }) := by
  obtain ⟨⟨hn, hpods, hsvc, hing⟩, hw⟩ := h
  refine ⟨⟨hn, ?_, hsvc, hing⟩, hw⟩
  intro f hf
  rcases mem_mapSet _ _ _ f hf with hf | hf
  · exact hpods f hf
  · rw [hf]
    exact ⟨hp.trans hn.symm, rfl⟩

theorem entryInv_deletePod (name : String) (ns : Namespace) (key : String)
    (h : EntryInv (name, ns)) :
    EntryInv (name, { ns with Pods := mapDelete ns.Pods key }) := by
  obtain ⟨⟨hn, hpods, hsvc, hing⟩, hw⟩ := h
  exact ⟨⟨hn, fun f hf => hpods f (mem_mapDelete _ _ f hf).1, hsvc, hing⟩, hw⟩

theorem entryInv_setService (name : String) (ns : Namespace) (svc : Service)
    (h : EntryInv (name, ns)) (hp : svc.Namespace = name) :
    EntryInv (name, { ns with Services := mapSet ns.Services svc.Name svc }) := by
  obtain ⟨⟨hn, hpods, hsvc, hing⟩, hw⟩ := h
  refine ⟨⟨hn, hpods, ?_, hing⟩, hw⟩
  intro f hf
  rcases mem_mapSet _ _ _ f hf with hf | hf
  · exact hsvc f hf
  · rw [hf]
    exact ⟨hp.trans hn.symm, rfl⟩

theorem entryInv_setIngress (name : String) (ns : Namespace) (ingress : Ingress)
    (h : EntryInv (name, ns)) (hp : ingress.Namespace = name) :
    EntryInv (name, { ns with Ingresses := mapSet ns.Ingresses ingress.Name ingress }) := by
  obtain ⟨⟨hn, hpods, hsvc, hing⟩, hw⟩ := h
  refine ⟨⟨hn, hpods, hsvc, ?_⟩, hw⟩
  intro f hf
  rcases mem_mapSet _ _ _ f hf with hf | hf
  · exact hing f hf
  · rw [hf]
    exact ⟨hp.trans hn.symm, rfl⟩

/-- One event keeps the store invariant, whether it is processed or panics. -/
theorem syncJob_storeInv (getGlobal getDefault : String) (s : SyncState)
    (e : SyncDataEvent) (h : StoreInv s.c) :
    StoreInv (reached (syncJob getGlobal getDefault s e)).c := by
  cases e with
  | COMMAND t =>
    by_cases hc : s.hadChanges = true
    · cases hu : UpdateHAProxy getGlobal getDefault s.c with
      | none => simpa [syncJob, hc, hu, reached] using h
      | some cfg => simpa [syncJob, hc, hu, reached] using h
    · simpa [syncJob, hc, reached] using h
  | NAMESPACE t payload =>
    cases t <;> first | exact h | exact (storeInv_GetNamespace s.c payload.Name h).1
  | INGRESS t payload =>
    have hG := storeInv_GetNamespace s.c payload.Namespace h
    cases t <;> first
      | exact h
      | exact storeInv_putNamespace _ _ _ hG.1 (entryInv_setIngress _ _ payload hG.2 rfl)
  | SERVICE t payload =>
    have hG := storeInv_GetNamespace s.c payload.Namespace h
    cases t <;> first
      | exact h
      | exact storeInv_putNamespace _ _ _ hG.1 (entryInv_setService _ _ payload hG.2 rfl)
  | POD t payload =>
    have hG := storeInv_GetNamespace s.c payload.Namespace h
    have hset := storeInv_putNamespace _ _ _ hG.1 (entryInv_setPod _ _ payload hG.2 rfl)
    cases t with
    | Added => exact hset
    | Modified =>
      cases hold : mapGet (GetNamespace s.c payload.Namespace).2.Pods payload.Name with
      | none =>
        simp only [syncJob, hold, reached]
        exact hset
      | some old =>
        simp only [syncJob, hold, reached]
        exact hset
    | Deleted =>
      cases hold : mapGet (GetNamespace s.c payload.Namespace).2.Pods payload.Name with
      | none =>
        simp only [syncJob, hold]
        cases UpdateHAProxy getGlobal getDefault (GetNamespace s.c payload.Namespace).1 with
        | none => exact hG.1
        | some cfg => exact hG.1
      | some old =>
        simp only [syncJob, hold]
        cases UpdateHAProxy getGlobal getDefault
            (putNamespace (GetNamespace s.c payload.Namespace).1 payload.Namespace
              { (GetNamespace s.c payload.Namespace).2 with
                Pods := mapDelete (GetNamespace s.c payload.Namespace).2.Pods
                  payload.Name }) with
        | none =>
          exact storeInv_putNamespace _ _ _ hG.1 (entryInv_deletePod _ _ payload.Name hG.2)
        | some cfg =>
          exact storeInv_putNamespace _ _ _ hG.1 (entryInv_deletePod _ _ payload.Name hG.2)
    | Bookmark => exact h
    | Error => exact h
  | CONFIGMAP t payload =>
    cases t <;> exact h

theorem runJobs_storeInv (getGlobal getDefault : String) (jobs : List SyncDataEvent)
    (s : SyncState) (h : StoreInv s.c) :
    StoreInv (reached (runJobs getGlobal getDefault s jobs)).c := by
  induction jobs generalizing s with
  | nil => exact h
  | cons e jobs ih =>
    have hstep := syncJob_storeInv getGlobal getDefault s e h
    simp only [runJobs]
    cases hj : syncJob getGlobal getDefault s e with
    | ok s1 =>
      rw [hj] at hstep
      exact ih s1 hstep
    | error s1 =>
      rw [hj] at hstep
      exact hstep

theorem SyncData_storeInv (getGlobal getDefault : String) (jobChan : List SyncDataEvent) :
    StoreInv (reached (SyncData getGlobal getDefault jobChan)).c :=
  runJobs_storeInv getGlobal getDefault jobChan SyncState.init
    (by intro e he; cases he)

/-! ### C15 -/

/-- C15: in every state that `SyncData` reaches from the empty store, whatever
events it has received, every namespace of the store is marked watched if and
only if its name is `default`; this covers the namespaces registered by a
Namespace ADD event and those registered on first reference by a pod, service
or ingress event. -/
theorem reached_watch_iff_default (getGlobal getDefault : String)
    (jobChan : List SyncDataEvent) :
    WatchIsDefault (reached (SyncData getGlobal getDefault jobChan)).c :=
  fun e he => (SyncData_storeInv getGlobal getDefault jobChan e he).2

/-! ### C20 -/

/-- C20: in every state that `SyncData` reaches from the empty store, each
namespace is stored under the key equal to its `Name`, and each pod, service
and ingress is stored in the namespace whose `Name` equals the entity's
`Namespace` field, under the key equal to the entity's `Name`; so every
service is registered under its own name, and the backend name built from
`service.Name` is the one built from the path's service name. -/
theorem reached_keys_consistent (getGlobal getDefault : String)
    (jobChan : List SyncDataEvent) :
    KeysConsistent (reached (SyncData getGlobal getDefault jobChan)).c ∧
    ServicesKeyed (reached (SyncData getGlobal getDefault jobChan)).c ∧
    (∀ ns rule path svc,
      Referenced (reached (SyncData getGlobal getDefault jobChan)).c ns rule path svc →
      backendName ns.Name svc.Name path.Backend.ServicePort.String =
        (useBackendOf ns rule path).backend) := by
  have hinv := SyncData_storeInv getGlobal getDefault jobChan
  have hkeys : ServicesKeyed (reached (SyncData getGlobal getDefault jobChan)).c :=
    fun e he f hf => ((hinv e he).1.2.2.1 f hf).2
  refine ⟨fun e he => (hinv e he).1, hkeys, ?_⟩
  intro ns rule path svc href
  obtain ⟨nk, hns⟩ := href.1
  have hname : svc.Name = path.Backend.ServiceName :=
    hkeys (nk, ns) hns (_, svc) (mapGet_mem _ _ _ href.2.2.2.2)
  rw [hname]
  rfl

/-! ### Applying an event twice -/

theorem mapSet_mapSet {V : Type} (m : GoMap V) (key : String) (val val1 : V) :
    mapSet (mapSet m key val) key val1 = mapSet m key val1 := by
  induction m with
  | nil => simp [mapSet]
  | cons e m ih =>
    obtain ⟨k, v⟩ := e
    by_cases hk : k = key
    · simp [mapSet, hk]
    · simp [mapSet, hk, ih]

theorem GetNamespace_of_lookup (c : HAProxyController) (name : String) (ns : Namespace)
    (h : mapGet c.Namespaces name = some ns) : GetNamespace c name = (c, ns) := by
  simp [GetNamespace, h]

theorem GetNamespace_idem (c : HAProxyController) (name : String) :
    GetNamespace (GetNamespace c name).1 name =
      ((GetNamespace c name).1, (GetNamespace c name).2) :=
  GetNamespace_of_lookup _ _ _ (GetNamespace_lookup c name)

theorem GetNamespace_putNamespace (c : HAProxyController) (name : String) (ns : Namespace) :
    GetNamespace (putNamespace c name ns) name = (putNamespace c name ns, ns) :=
  GetNamespace_of_lookup _ _ _ (by simp [putNamespace, mapGet_mapSet_self])

theorem putNamespace_putNamespace (c : HAProxyController) (name : String)
    (ns ns1 : Namespace) :
    putNamespace (putNamespace c name ns) name ns1 = putNamespace c name ns1 := by
  simp [putNamespace, mapSet_mapSet]

theorem lookup_after_put (c : HAProxyController) (name : String) (ns : Namespace)
    (key : String) :
    mapGet (GetNamespace (putNamespace c name ns) name).2.Pods key = mapGet ns.Pods key := by
  rw [GetNamespace_putNamespace]

theorem lookup_after_get (c : HAProxyController) (name key : String) :
    mapGet (GetNamespace (GetNamespace c name).1 name).2.Pods key =
      mapGet (GetNamespace c name).2.Pods key := by
  rw [GetNamespace_idem]

/-- The MODIFY of a registered pod: the pod is replaced and `hadChanges` set. -/
theorem syncJob_pod_modified_known (getGlobal getDefault : String) (s : SyncState)
    (p old : Pod) (h : mapGet (GetNamespace s.c p.Namespace).2.Pods p.Name = some old) :
    syncJob getGlobal getDefault s (.POD .Modified p) =
      .ok { s with
        c := putNamespace (GetNamespace s.c p.Namespace).1 p.Namespace
          { (GetNamespace s.c p.Namespace).2 with
            Pods := mapSet (GetNamespace s.c p.Namespace).2.Pods p.Name p }
        hadChanges := true } := by
  simp only [syncJob, h]

/-- The DELETE of a pod that is not registered: the store stays as
`GetNamespace` leaves it, and the document that `UpdateHAProxy` returns on it is
generated. -/
theorem syncJob_pod_deleted_unknown (getGlobal getDefault : String) (s : SyncState)
    (p : Pod) (cfg : String)
    (h : mapGet (GetNamespace s.c p.Namespace).2.Pods p.Name = none)
    (hu : UpdateHAProxy getGlobal getDefault (GetNamespace s.c p.Namespace).1 = some cfg) :
    syncJob getGlobal getDefault s (.POD .Deleted p) =
      .ok { s with
        c := (GetNamespace s.c p.Namespace).1
        generated := s.generated ++ [cfg] } := by
  simp only [syncJob, h, hu]

/-- Writing a namespace update through `GetNamespace` a second time changes
nothing when the update is idempotent. -/
theorem update_twice (c : HAProxyController) (name : String) (upd : Namespace → Namespace)
    (hupd : ∀ ns, upd (upd ns) = upd ns) :
    putNamespace
        (GetNamespace (putNamespace (GetNamespace c name).1 name
          (upd (GetNamespace c name).2)) name).1 name
        (upd (GetNamespace (putNamespace (GetNamespace c name).1 name
          (upd (GetNamespace c name).2)) name).2) =
      putNamespace (GetNamespace c name).1 name (upd (GetNamespace c name).2) := by
  rw [GetNamespace_putNamespace]
  simp only [hupd, putNamespace_putNamespace]

/-- A successful event, applied once more, succeeds again and leaves the store
as the first application left it. -/
theorem syncJob_twice (getGlobal getDefault : String) (s s1 : SyncState)
    (e : SyncDataEvent) (h : syncJob getGlobal getDefault s e = .ok s1) :
    ∃ s2, syncJob getGlobal getDefault s1 e = .ok s2 ∧ s2.c = s1.c := by
  have hsame : syncJob getGlobal getDefault s e = .ok s →
      ∃ s2, syncJob getGlobal getDefault s1 e = .ok s2 ∧ s2.c = s1.c := by
    intro h0
    rw [h0] at h
    injection h with h
    subst h
    exact ⟨s, h0, rfl⟩
  cases e with
  | COMMAND t =>
    by_cases hc : s.hadChanges = true
    · cases hu : UpdateHAProxy getGlobal getDefault s.c with
      | none =>
        simp only [syncJob, hc, if_true, hu] at h
        cases h
      | some cfg =>
        simp only [syncJob, hc, if_true, hu] at h
        have h1 := Except.ok.inj h
        subst h1
        exact ⟨_, by simp [syncJob], rfl⟩
    · exact hsame (by simp [syncJob, hc])
  | NAMESPACE t payload =>
    cases t with
    | Added =>
      have h1 := Except.ok.inj h
      subst h1
      exact ⟨_, rfl, congrArg Prod.fst (GetNamespace_idem s.c payload.Name)⟩
    | Modified => exact hsame rfl
    | Deleted => exact hsame rfl
    | Bookmark => exact hsame rfl
    | Error => exact hsame rfl
  | INGRESS t payload =>
    cases t with
    | Added =>
      have h1 := Except.ok.inj h
      subst h1
      exact ⟨_, rfl, update_twice s.c payload.Namespace
        (fun ns => { ns with Ingresses := mapSet ns.Ingresses payload.Name payload })
        (fun ns => by simp [mapSet_mapSet])⟩
    | Modified => exact hsame rfl
    | Deleted => exact hsame rfl
    | Bookmark => exact hsame rfl
    | Error => exact hsame rfl
  | SERVICE t payload =>
    cases t with
    | Added =>
      have h1 := Except.ok.inj h
      subst h1
      exact ⟨_, rfl, update_twice s.c payload.Namespace
        (fun ns => { ns with Services := mapSet ns.Services payload.Name payload })
        (fun ns => by simp [mapSet_mapSet])⟩
    | Modified => exact hsame rfl
    | Deleted => exact hsame rfl
    | Bookmark => exact hsame rfl
    | Error => exact hsame rfl
  | POD t payload =>
    have hset := update_twice s.c payload.Namespace
      (fun ns => { ns with Pods := mapSet ns.Pods payload.Name payload })
      (fun ns => by simp [mapSet_mapSet])
    cases t with
    | Added =>
      have h1 := Except.ok.inj h
      subst h1
      exact ⟨_, rfl, hset⟩
    | Modified =>
      cases hold : mapGet (GetNamespace s.c payload.Namespace).2.Pods payload.Name with
      | none =>
        simp only [syncJob, hold] at h
        cases h
      | some old =>
        simp only [syncJob, hold] at h
        have h1 := Except.ok.inj h
        subst h1
        exact ⟨_, syncJob_pod_modified_known _ _ _ payload payload
          (by rw [lookup_after_put]; exact mapGet_mapSet_self _ _ _), hset⟩
    | Deleted =>
      cases hold : mapGet (GetNamespace s.c payload.Namespace).2.Pods payload.Name with
      | none =>
        simp only [syncJob, hold] at h
        cases hu : UpdateHAProxy getGlobal getDefault
            (GetNamespace s.c payload.Namespace).1 with
        | none =>
          rw [hu] at h
          cases h
        | some cfg =>
          rw [hu] at h
          have h1 := Except.ok.inj h
          subst h1
          have hc1 := congrArg Prod.fst (GetNamespace_idem s.c payload.Namespace)
          exact ⟨_, syncJob_pod_deleted_unknown _ _ _ payload cfg
            (by rw [lookup_after_get]; exact hold) (by rw [hc1]; exact hu), hc1⟩
      | some old =>
        simp only [syncJob, hold] at h
        cases hu : UpdateHAProxy getGlobal getDefault
            (putNamespace (GetNamespace s.c payload.Namespace).1 payload.Namespace
              { (GetNamespace s.c payload.Namespace).2 with
                Pods := mapDelete (GetNamespace s.c payload.Namespace).2.Pods
                  payload.Name }) with
        | none =>
          rw [hu] at h
          cases h
        | some cfg =>
          rw [hu] at h
          have h1 := Except.ok.inj h
          subst h1
          have hc1 := congrArg Prod.fst (GetNamespace_putNamespace
            (GetNamespace s.c payload.Namespace).1 payload.Namespace
            { (GetNamespace s.c payload.Namespace).2 with
              Pods := mapDelete (GetNamespace s.c payload.Namespace).2.Pods payload.Name })
          exact ⟨_, syncJob_pod_deleted_unknown _ _ _ payload cfg
            (by rw [lookup_after_put]; exact mapGet_mapDelete_self _ _)
            (by rw [hc1]; exact hu), hc1⟩
    | Bookmark => exact hsame rfl
    | Error => exact hsame rfl
  | CONFIGMAP t payload =>
    cases t with
    | Added =>
      have h1 := Except.ok.inj h
      subst h1
      exact ⟨_, rfl,
        congrArg (fun m => ({ s.c with ConfigMap := m } : HAProxyController))
          (mapSet_mapSet s.c.ConfigMap payload.Name payload payload)⟩
    | Modified => exact hsame rfl
    | Deleted => exact hsame rfl
    | Bookmark => exact hsame rfl
    | Error => exact hsame rfl

/-! ### The store of scenario 1 under two enumeration orders -/

theorem sameStore_refl (c : HAProxyController) : SameStore c c :=
  ⟨⟨c.Namespaces, List.Perm.refl _,
    List.forall₂_same.2 (fun _ _ =>
      ⟨rfl, rfl, rfl, List.Perm.refl _, List.Perm.refl _, List.Perm.refl _⟩)⟩,
    List.Perm.refl _⟩

theorem sameStore_scenario_swapped : SameStore storeScenario storeScenarioSwapped :=
  ⟨⟨storeScenario.Namespaces, List.Perm.refl _,
    List.Forall₂.cons
      ⟨rfl, rfl, rfl, List.Perm.swap _ _ _, List.Perm.refl _, List.Perm.refl _⟩
      List.Forall₂.nil⟩,
    List.Perm.refl _⟩

theorem UpdateHAProxy_scenario :
    UpdateHAProxy "" "" storeScenario = some (document "" "" storeScenario) :=
  UpdateHAProxy_of_present "" "" storeScenario
    ((buildBuffers_panicked_iff storeScenario).1 (by decide))

theorem UpdateHAProxy_scenario_swapped :
    UpdateHAProxy "" "" storeScenarioSwapped = some (document "" "" storeScenarioSwapped) :=
  UpdateHAProxy_of_present "" "" storeScenarioSwapped
    ((buildBuffers_panicked_iff storeScenarioSwapped).1 (by decide))

set_option maxRecDepth 100000 in
/-- The two orders of the pods give two documents: the addresses under
`server0000` and `server0001` are exchanged. -/
theorem document_scenario_swapped_ne :
    document "" "" storeScenario ≠ document "" "" storeScenarioSwapped := by
  decide

/-! ### C13 -/

/-- C13, counterexample: after the events of scenario 1 the ADD of the pod
`web-b`, applied once or twice, leaves the store of scenario 1; from that store
`UpdateHAProxy` may generate two different documents, one for each order in
which the two pods are enumerated. The same store does not give the same next
document. -/
theorem event_twice_documents_differ : ¬ EventTwiceSameDocument "" "" := by
  intro h
  have hs : SyncData "" "" scenarioEvents =
      .ok { c := storeScenario, hadChanges := true, generated := [] } := rfl
  have h1 : (reached (runJobs "" ""
      { c := storeScenario, hadChanges := true, generated := [] }
      [.POD .Added scenarioPodB, .POD .Added scenarioPodB])).c = storeScenario := rfl
  have h2 : (reached (runJobs "" ""
      { c := storeScenario, hadChanges := true, generated := [] }
      [.POD .Added scenarioPodB])).c = storeScenario := rfl
  have hdoc := h scenarioEvents _ (.POD .Added scenarioPodB)
    (document "" "" storeScenario) (document "" "" storeScenarioSwapped) hs
    ⟨storeScenario, h1 ▸ sameStore_refl storeScenario, UpdateHAProxy_scenario⟩
    ⟨storeScenarioSwapped, h2 ▸ sameStore_scenario_swapped, UpdateHAProxy_scenario_swapped⟩
  exact document_scenario_swapped_ne hdoc

/-- C13, amended: in every state and for every event, applying the event twice
leaves the same store as applying it once; and when the first application is
processed, so is the second. The documents that `UpdateHAProxy` may generate
next are therefore the same after one application as after two; which of them
it generates depends on the order in which the maps of the store are
enumerated. (An event that is not processed panics at its first application,
which ends both runs in the same state: the MODIFY of a pod that is not
registered, and an `UpdateHAProxy` that meets a nil `HTTP`.) -/
theorem event_twice_same_store (getGlobal getDefault : String) (s : SyncState)
    (e : SyncDataEvent) :
    (reached (runJobs getGlobal getDefault s [e, e])).c =
      (reached (runJobs getGlobal getDefault s [e])).c ∧
    (∀ doc, MayGenerate getGlobal getDefault
          (reached (runJobs getGlobal getDefault s [e, e])).c doc ↔
        MayGenerate getGlobal getDefault
          (reached (runJobs getGlobal getDefault s [e])).c doc) ∧
    (∀ s1, syncJob getGlobal getDefault s e = .ok s1 →
      ∃ s2, syncJob getGlobal getDefault s1 e = .ok s2 ∧ s2.c = s1.c) := by
  have hc : (reached (runJobs getGlobal getDefault s [e, e])).c =
      (reached (runJobs getGlobal getDefault s [e])).c := by
    simp only [runJobs]
    cases h : syncJob getGlobal getDefault s e with
    | error s1 => rfl
    | ok s1 =>
      obtain ⟨s2, h2, hc2⟩ := syncJob_twice getGlobal getDefault s s1 e h
      simp only [h2, reached]
      exact hc2
  exact ⟨hc, fun doc => by rw [hc], fun s1 h => syncJob_twice getGlobal getDefault s s1 e h⟩

/-! ### C11 -/

theorem foldl_rel_map {α α1 β : Type} (R : β → β → Prop) (f : β → α → β)
    (f1 : β → α1 → β) (g : α → α1) (l : List α) (b b1 : β) (hb : R b b1)
    (hstep : ∀ b b1 a, a ∈ l → R b b1 → R (f b a) (f1 b1 (g a))) :
    R (l.foldl f b) ((l.map g).foldl f1 b1) := by
  induction l generalizing b b1 with
  | nil => exact hb
  | cons a l ih =>
    simp only [List.map_cons, List.foldl_cons]
    exact ih _ _ (hstep b b1 a (List.mem_cons_self _ _) hb)
      (fun b b1 x hx h => hstep b b1 x (List.mem_cons_of_mem _ hx) h)

theorem foldl_rel_filter {α β : Type} (R : β → β → Prop) (f f1 : β → α → β)
    (keep : α → Bool) (l : List α) (b b1 : β) (hb : R b b1)
    (hkeep : ∀ b b1 a, a ∈ l → R b b1 → keep a = true → R (f b a) (f1 b1 a))
    (hdrop : ∀ b b1 a, a ∈ l → R b b1 → keep a = false → R (f b a) b1) :
    R (l.foldl f b) ((l.filter keep).foldl f1 b1) := by
  induction l generalizing b b1 with
  | nil => exact hb
  | cons a l ih =>
    have ih1 := fun b b1 hb => ih b b1 hb
      (fun b b1 x hx h hk => hkeep b b1 x (List.mem_cons_of_mem _ hx) h hk)
      (fun b b1 x hx h hk => hdrop b b1 x (List.mem_cons_of_mem _ hx) h hk)
    cases hk : keep a with
    | true =>
      simp only [List.filter_cons, hk, if_true, List.foldl_cons]
      exact ih1 _ _ (hkeep b b1 a (List.mem_cons_self _ _) hb hk)
    | false =>
      simp only [List.filter_cons, hk, Bool.false_eq_true, if_false, List.foldl_cons]
      exact ih1 _ _ (hdrop b b1 a (List.mem_cons_self _ _) hb hk)

/-- What the path loop body does to the ACLs, the `backends` buffer and
`createdBackends` depends on these three only. -/
theorem processPath_sameBackends (ns : Namespace) (rule : IngressRule) (b b1 : Buffers)
    (path : HTTPIngressPath) (h : SameBackends b b1) :
    SameBackends (processPath ns rule b path) (processPath ns rule b1 path) := by
  obtain ⟨a, u, w, cb, pk⟩ := b
  obtain ⟨a1, u1, w1, cb1, pk1⟩ := b1
  obtain ⟨h1, h2, h3, h4⟩ := h
  simp only at h1 h2 h3 h4
  subst h1 h2 h3 h4
  unfold processPath
  cases mapGet ns.Services path.Backend.ServiceName with
  | none => exact ⟨rfl, rfl, rfl, rfl⟩
  | some svc =>
    simp only
    split
    · exact ⟨rfl, rfl, rfl, rfl⟩
    · split
      · exact ⟨rfl, rfl, rfl, rfl⟩
      · exact ⟨rfl, rfl, rfl, rfl⟩

/-- On a path whose service has no selector, the loop body writes the
`use_backend` directive and nothing else. -/
theorem processPath_emptySelector (ns : Namespace) (rule : IngressRule) (b : Buffers)
    (path : HTTPIngressPath) (svc : Service)
    (hsvc : mapGet ns.Services path.Backend.ServiceName = some svc)
    (hsel : svc.Selector = []) :
    processPath ns rule b path =
      { b with useBackend := b.useBackend ++ [useBackendOf ns rule path] } := by
  rcases processPath_cases ns rule b path with
    ⟨hn, _⟩ | ⟨svc1, _, _, he⟩ | ⟨svc1, h1, h2, _⟩ | ⟨svc1, h1, h2, _⟩
  · rw [hsvc] at hn; cases hn
  · exact he
  · rw [hsvc] at h1; cases h1; exact absurd hsel h2
  · rw [hsvc] at h1; cases h1; exact absurd hsel h2

theorem processNamespace_dropPaths_sameBackends
    (drop : Namespace → Ingress → IngressRule → HTTPIngressPath → Bool) (ns : Namespace)
    (hdrop : ∀ f ∈ ns.Ingresses, ∀ r ∈ f.2.Rules, ∀ p ∈ r.paths,
      drop ns f.2 r p = true →
      ∃ svc, mapGet ns.Services p.Backend.ServiceName = some svc ∧ svc.Selector = [])
    (b b1 : Buffers) (h : SameBackends b b1) :
    SameBackends (processNamespace b ns)
      (processNamespace b1 (dropPathsNamespace drop ns)) := by
  unfold processNamespace
  have hw : (dropPathsNamespace drop ns).Watch = ns.Watch := rfl
  rw [hw]
  split
  · exact h
  · simp only [dropPathsNamespace]
    refine foldl_rel_map SameBackends _ _ _ ns.Ingresses b b1 h ?_
    intro b b1 f hf h
    simp only [processIngress]
    refine foldl_rel_map SameBackends _ _ _ f.2.Rules b b1 h ?_
    intro b b1 r hr h
    unfold processRule
    rw [← h.2.2.2]
    split
    · exact h
    · cases hh : r.HTTP with
      | none =>
        simp only [Option.map_none']
        exact ⟨by simp only [h.1], h.2.1, h.2.2.1, rfl⟩
      | some http =>
        simp only [Option.map_some']
        refine foldl_rel_filter SameBackends _ _ _ http.Paths _ _
          ⟨by simp only [h.1], h.2.1, h.2.2.1, rfl⟩ ?_ ?_
        · intro b b1 p _ h _
          convert processPath_sameBackends ns r b b1 p h using 1
        · intro b b1 p hp h hk
          have hd : drop ns f.2 r p = true := by simpa using hk
          obtain ⟨svc, hsvc, hsel⟩ :=
            hdrop f hf r hr p (by simp only [IngressRule.paths, hh]; exact hp) hd
          rw [processPath_emptySelector ns r b p svc hsvc hsel]
          exact h

theorem buildBuffers_dropPaths_sameBackends
    (drop : Namespace → Ingress → IngressRule → HTTPIngressPath → Bool)
    (c : HAProxyController)
    (hdrop : ∀ e ∈ c.Namespaces, ∀ f ∈ e.2.Ingresses, ∀ r ∈ f.2.Rules, ∀ p ∈ r.paths,
      drop e.2 f.2 r p = true →
      ∃ svc, mapGet e.2.Services p.Backend.ServiceName = some svc ∧ svc.Selector = []) :
    SameBackends (buildBuffers c) (buildBuffers (dropPaths drop c)) := by
  simp only [buildBuffers, dropPaths]
  refine foldl_rel_map SameBackends _ _ _ c.Namespaces _ _ ⟨rfl, rfl, rfl, rfl⟩ ?_
  intro b b1 e he h
  exact processNamespace_dropPaths_sameBackends drop e.2 (hdrop e he) b b1 h

/-- C11: on a path that resolves to a service whose selector is empty, the path
loop body writes the `use_backend` directive and nothing else: no backend
section header, no server line, no entry of `createdBackends`. So the
`backends` part of the document generated from a store is the one generated
from the same store without any chosen set of such paths, and every backend
section of the document was written for a service with a non-empty
selector. -/
theorem empty_selector_no_backend
    (drop : Namespace → Ingress → IngressRule → HTTPIngressPath → Bool)
    (c : HAProxyController)
    (hdrop : ∀ e ∈ c.Namespaces, ∀ f ∈ e.2.Ingresses, ∀ r ∈ f.2.Rules, ∀ p ∈ r.paths,
      drop e.2 f.2 r p = true →
      ∃ svc, mapGet e.2.Services p.Backend.ServiceName = some svc ∧ svc.Selector = []) :
    (∀ e ∈ c.Namespaces, ∀ f ∈ e.2.Ingresses, ∀ r ∈ f.2.Rules, ∀ p ∈ r.paths,
      drop e.2 f.2 r p = true →
      ∀ b, (processPath e.2 r b p).backends = b.backends ∧
        (processPath e.2 r b p).createdBackends = b.createdBackends) ∧
    (buildBuffers (dropPaths drop c)).backends = (buildBuffers c).backends ∧
    (∀ sec ∈ sections (buildBuffers c).backends,
      ∃ ns rule path svc, Referenced c ns rule path svc ∧ svc.Selector ≠ [] ∧
        sec.name = backendName ns.Name svc.Name path.Backend.ServicePort.String) := by
  refine ⟨?_, (buildBuffers_dropPaths_sameBackends drop c hdrop).2.1.symm, ?_⟩
  · intro e he f hf r hr p hp hd b
    obtain ⟨svc, hsvc, hsel⟩ := hdrop e he f hf r hr p hp hd
    rw [processPath_emptySelector e.2 r b p svc hsvc hsel]
    exact ⟨rfl, rfl⟩
  · intro sec hsec
    obtain ⟨ns, rule, path, svc, href, hsel, rfl⟩ := section_origin c sec hsec
    exact ⟨ns, rule, path, svc, href, hsel, rfl⟩

/-- C11 at the store `storeNoSelector`: its one path goes to a service without
selector, and the `backends` buffer stays empty. -/
theorem empty_selector_no_backend_witness :
    (buildBuffers storeNoSelector).useBackend ≠ [] ∧
    (buildBuffers storeNoSelector).backends = [] :=
  ⟨by decide,
    (empty_selector_no_backend dropAll storeNoSelector (by decide)).2.1.symm.trans
      (by decide)⟩

/-! ### C12 -/

theorem foldl_rel {α β : Type} (R : β → β → Prop) (f f1 : β → α → β) (l : List α)
    (b b1 : β) (hb : R b b1)
    (hstep : ∀ b b1 a, a ∈ l → R b b1 → R (f b a) (f1 b1 a)) :
    R (l.foldl f b) (l.foldl f1 b1) := by
  induction l generalizing b b1 with
  | nil => exact hb
  | cons a l ih =>
    simp only [List.foldl_cons]
    exact ih _ _ (hstep b b1 a (List.mem_cons_self _ _) hb)
      (fun b b1 x hx h => hstep b b1 x (List.mem_cons_of_mem _ hx) h)

theorem foldl_forall₂ {α α1 β : Type} (R : β → β → Prop) (S : α → α1 → Prop)
    (f : β → α → β) (f1 : β → α1 → β) (l : List α) (l1 : List α1)
    (hl : List.Forall₂ S l l1)
    (hstep : ∀ b b1 a a1, S a a1 → R b b1 → R (f b a) (f1 b1 a1)) :
    ∀ b b1, R b b1 → R (l.foldl f b) (l1.foldl f1 b1) := by
  induction hl with
  | nil => intro b b1 hb; exact hb
  | cons ha _ ih =>
    intro b b1 hb
    simp only [List.foldl_cons]
    exact ih _ _ (hstep b b1 _ _ ha hb)

/-- The addresses of the server lines are those of the running, matching pods,
in enumeration order. -/
theorem serverLines_addresses (selector : GoMap String) (port : String) (pods : GoMap Pod)
    (index : Nat) :
    (serverLines selector port pods index).map ServerLine.address =
      (pods.filter (fun e =>
        decide (e.2.Status = PodRunning ∧ hasSelectors selector e.2.Labels = true))).map
        (fun e => (e.2.IP, port)) := by
  induction pods generalizing index with
  | nil => rfl
  | cons e pods ih =>
    obtain ⟨k, pod⟩ := e
    unfold serverLines
    by_cases hc : pod.Status = PodRunning ∧ hasSelectors selector pod.Labels = true
    · rw [if_pos hc]
      simp only [List.map_cons, List.filter_cons, hc, and_self, decide_True, if_true, ih]
      rfl
    · rw [if_neg hc]
      simp only [List.filter_cons, hc, decide_False, Bool.false_eq_true, if_false, ih]

theorem serverLines_perm (selector : GoMap String) (port : String) (pods pods1 : GoMap Pod)
    (h : pods.Perm pods1) :
    ((serverLines selector port pods 0).map ServerLine.address).Perm
      ((serverLines selector port pods1 0).map ServerLine.address) := by
  rw [serverLines_addresses, serverLines_addresses]
  exact (h.filter _).map _

theorem forall₂_snoc {α β : Type} (R : α → β → Prop) (l : List α) (l1 : List β) (a : α)
    (a1 : β) (hl : List.Forall₂ R l l1) (ha : R a a1) :
    List.Forall₂ R (l ++ [a]) (l1 ++ [a1]) :=
  List.rel_append hl (List.Forall₂.cons ha List.Forall₂.nil)

/-- The path loop body keeps the buffers in agreement when the pods of the
namespace are enumerated in another order. -/
theorem processPath_agree (ns ns1 : Namespace) (rule : IngressRule) (b b1 : Buffers)
    (path : HTTPIngressPath) (hn : ns.Name = ns1.Name) (hs : ns.Services = ns1.Services)
    (hp : ns.Pods.Perm ns1.Pods) (h : BuffersAgree b b1) :
    BuffersAgree (processPath ns rule b path) (processPath ns1 rule b1 path) := by
  obtain ⟨a, u, w, cb, pk⟩ := b
  obtain ⟨a1, u1, w1, cb1, pk1⟩ := b1
  obtain ⟨h1, h2, h3, h5, h4⟩ := h
  simp only at h1 h2 h3 h4 h5
  subst h1 h2 h3 h5
  unfold processPath
  rw [hn, hs]
  cases mapGet ns1.Services path.Backend.ServiceName with
  | none => exact ⟨rfl, rfl, rfl, rfl, h4⟩
  | some svc =>
    simp only
    split
    · exact ⟨rfl, rfl, rfl, rfl, h4⟩
    · split
      · exact ⟨rfl, rfl, rfl, rfl, forall₂_snoc _ _ _ _ _ h4 trivial⟩
      · exact ⟨rfl, rfl, rfl, rfl,
          forall₂_snoc _ _ _ _ _
            (forall₂_snoc _ _ _ _ _ h4 ⟨rfl, serverLines_perm _ _ _ _ hp⟩) trivial⟩

theorem processNamespace_agree (e e1 : String × Namespace) (b b1 : Buffers)
    (he : PodsReorderedEntry e e1) (h : BuffersAgree b b1) :
    BuffersAgree (processNamespace b e.2) (processNamespace b1 e1.2) := by
  obtain ⟨-, hn, hw, hs, hi, hp⟩ := he
  unfold processNamespace
  rw [hw, hi]
  split
  · exact h
  · refine foldl_rel BuffersAgree _ _ e1.2.Ingresses b b1 h ?_
    intro b b1 f _ h
    simp only [processIngress]
    refine foldl_rel BuffersAgree _ _ f.2.Rules b b1 h ?_
    intro b b1 r _ h
    unfold processRule
    rw [← h.2.2.2.1]
    split
    · exact h
    · cases r.HTTP with
      | none => exact ⟨by simp only [h.1], h.2.1, h.2.2.1, rfl, h.2.2.2.2⟩
      | some http =>
        refine foldl_rel BuffersAgree _ _ http.Paths _ _
          ⟨by simp only [h.1], h.2.1, h.2.2.1, rfl, h.2.2.2.2⟩ ?_
        intro b b1 p _ h
        exact processPath_agree e.2 e1.2 r b b1 p hn hs hp h

theorem buildBuffers_agree (c c1 : HAProxyController) (h : PodsReordered c c1) :
    BuffersAgree (buildBuffers c) (buildBuffers c1) := by
  unfold buildBuffers
  exact foldl_forall₂ BuffersAgree PodsReorderedEntry _ _ _ _ h.1
    (fun b b1 e e1 he hb => processNamespace_agree e e1 b b1 he hb) _ _
    ⟨rfl, rfl, rfl, rfl, List.Forall₂.nil⟩

/-- C12, as stated, fails: the store of scenario 1 and the same store with its
two pods enumerated in the other order have the same contents and different
documents (the addresses under `server0000` and `server0001` are exchanged). -/
theorem document_depends_on_enumeration : ¬ EnumerationIndependent "" "" := by
  intro h
  have hdoc := h storeScenario storeScenarioSwapped sameStore_scenario_swapped
  rw [UpdateHAProxy_scenario, UpdateHAProxy_scenario_swapped] at hdoc
  exact document_scenario_swapped_ne (Option.some.inj hdoc)

/-- C12, amended: the document is the value of a function of the store as
enumerated, so two generations over equal stores that enumerate their maps in
the same order produce the same document; and two stores that differ only in
the enumeration order of their pods yield the same ACLs, the same `use_backend`
directives, and the same sequence of backend sections by name, each with the
same pod addresses in some order. -/
theorem document_up_to_pod_order (getGlobal getDefault : String)
    (c c1 : HAProxyController) (h : PodsReordered c c1) :
    (c = c1 → UpdateHAProxy getGlobal getDefault c = UpdateHAProxy getGlobal getDefault c1) ∧
    (buildBuffers c).acls = (buildBuffers c1).acls ∧
    (buildBuffers c).useBackend = (buildBuffers c1).useBackend ∧
    List.Forall₂ BackendsAgree (buildBuffers c).backends (buildBuffers c1).backends ∧
    (buildBuffers c).panicked = (buildBuffers c1).panicked := by
  obtain ⟨h1, h2, -, h4, h5⟩ := buildBuffers_agree c c1 h
  exact ⟨fun hc => by rw [hc], h1, h2, h5, h4⟩

/-- C12 at the store of scenario 1 and its reordering: same `use_backend`
directives. -/
theorem document_up_to_pod_order_witness :
    storeScenario ≠ storeScenarioSwapped ∧
    (buildBuffers storeScenario).useBackend = (buildBuffers storeScenarioSwapped).useBackend ∧
    List.Forall₂ BackendsAgree (buildBuffers storeScenario).backends
      (buildBuffers storeScenarioSwapped).backends :=
  ⟨by decide,
    ((document_up_to_pod_order "" "" storeScenario storeScenarioSwapped
      ⟨List.Forall₂.cons ⟨rfl, rfl, rfl, rfl, rfl, List.Perm.swap _ _ _⟩ List.Forall₂.nil,
        rfl⟩).2.2.1),
    ((document_up_to_pod_order "" "" storeScenario storeScenarioSwapped
      ⟨List.Forall₂.cons ⟨rfl, rfl, rfl, rfl, rfl, List.Perm.swap _ _ _⟩ List.Forall₂.nil,
        rfl⟩).2.2.2.1)⟩

/-! ### C14 -/

set_option maxRecDepth 100000 in
/-- C14, as stated, fails: in the list that `Frontend` returns the redirect
handlers (positions 7 to 11) come before the auth handlers (positions 16 to
18), not after them. -/
theorem frontend_auth_not_before_redirect :
    ¬ annotations.AuthBeforeRedirect annotations.frontendNames := by
  unfold annotations.AuthBeforeRedirect annotations.AllBefore annotations.Before
  decide

set_option maxRecDepth 100000 in
/-- C14, amended: in the list that `Frontend` returns no name occurs twice, every
deny/allow handler comes before every rewrite handler, every rewrite handler
before every redirect handler, every redirect handler before every auth handler,
and every auth handler before every capture handler. -/
theorem frontend_family_order :
    annotations.frontendNames.Nodup ∧
    annotations.RedirectBeforeAuth annotations.frontendNames := by
  unfold annotations.RedirectBeforeAuth annotations.AllBefore annotations.Before
  decide

/-! ### C16 -/

set_option maxRecDepth 100000 in
/-- C16: for the store `storeTwoRules`, whose ingress has the rules for hosts
`foo.bar` and `x.y` in the watched namespace `default`, `UpdateHAProxy`
returns a document, and no line of it equals the ACL of `foo.bar`, nor that of
`x.y`: the ACL write of line 250 ends without a newline, so the two ACLs share
one line. The claim says that each of them is a line of its own. -/
theorem acl_lines_run_together :
    UpdateHAProxy "" "" storeTwoRules = some (document "" "" storeTwoRules) ∧
    "    acl host-foo.bar var(txn.hdr_host) -i foo.bar" ∉
      splitLines (document "" "" storeTwoRules) ∧
    "    acl host-x.y var(txn.hdr_host) -i x.y" ∉
      splitLines (document "" "" storeTwoRules) ∧
    "    acl host-foo.bar var(txn.hdr_host) -i foo.bar    acl host-x.y var(txn.hdr_host) -i x.y" ∈
      splitLines (document "" "" storeTwoRules) :=
  ⟨UpdateHAProxy_of_present "" "" storeTwoRules
      ((buildBuffers_panicked_iff storeTwoRules).1 (by decide)),
    by decide, by decide, by decide⟩

/-! ### C19 -/

/-- The text of a server line starts with the server name. -/
theorem renderServer_serverName (l : ServerLine) :
    renderServer l =
      "    server " ++ serverName l.index ++ " " ++ l.ip ++ ":" ++ l.port ++
        " weight 1 check port " ++ l.port ++ "\n" := by
  have h : "    server server000" = "    server " ++ "server000" := by decide
  simp only [renderServer, WriteBufferedString, List.foldl, serverName, h,
    String.append_assoc, String.empty_append]

set_option maxRecDepth 100000 in
/-- C19: for the store `storeElevenPods`, with eleven running pods behind one
service, the one backend section has the server names `server0000` to
`server0009` and `server00010`: the index is appended to the fixed text
`server000`, not padded to a fixed width, so the eleventh name is one character
longer than the others. The claim says that all names of a backend have the
same length for every number of servers. -/
theorem server_names_not_fixed_width :
    (sections (buildBuffers storeElevenPods).backends).map
        (fun sec => sec.servers.map (fun l => serverName l.index)) =
      [["server0000", "server0001", "server0002", "server0003", "server0004",
        "server0005", "server0006", "server0007", "server0008", "server0009",
        "server00010"]] ∧
    (serverName 0).length = 10 ∧ (serverName 10).length = 11 := by
  decide

/-! ### C17 -/

theorem fieldsAux_dropWhile (cs : List Char) :
    strings.fieldsAux (cs.dropWhile unicode.IsSpace) [] = strings.fieldsAux cs [] := by
  induction cs with
  | nil => rfl
  | cons c cs ih =>
    by_cases hc : unicode.IsSpace c = true
    · simp only [List.dropWhile, hc, strings.fieldsAux, if_true]
      exact ih
    · have hc1 : unicode.IsSpace c = false := by simpa using hc
      simp only [List.dropWhile, hc1]

theorem fieldsAux_spaces (ws cur : List Char) (hws : ∀ w ∈ ws, unicode.IsSpace w = true) :
    strings.fieldsAux ws cur = if cur = [] then [] else [String.mk cur] := by
  induction ws generalizing cur with
  | nil => rfl
  | cons w ws ih =>
    have hw := hws w (List.mem_cons_self _ _)
    have ih1 := fun cur => ih cur (fun x hx => hws x (List.mem_cons_of_mem _ hx))
    by_cases hcur : cur = []
    · simp only [strings.fieldsAux, hw, hcur, if_true, ih1]
    · simp only [strings.fieldsAux, hw, hcur, if_true, if_false, ih1]

theorem fieldsAux_append_spaces (cs ws cur : List Char)
    (hws : ∀ w ∈ ws, unicode.IsSpace w = true) :
    strings.fieldsAux (cs ++ ws) cur = strings.fieldsAux cs cur := by
  induction cs generalizing cur with
  | nil =>
    simp only [List.nil_append, strings.fieldsAux]
    exact fieldsAux_spaces ws cur hws
  | cons c cs ih =>
    simp only [List.cons_append, strings.fieldsAux, List.append_eq, ih]

/-- Trimming changes nothing for `strings.Fields`. -/
theorem Fields_TrimSpace (s : String) :
    strings.Fields (strings.TrimSpace s) = strings.Fields s := by
  unfold strings.Fields strings.TrimSpace
  simp only
  rw [← fieldsAux_dropWhile s.data]
  generalize s.data.dropWhile unicode.IsSpace = d
  have hsplit : d = (d.reverse.dropWhile unicode.IsSpace).reverse ++
      (d.reverse.takeWhile unicode.IsSpace).reverse := by
    rw [← List.reverse_append, List.takeWhile_append_dropWhile, List.reverse_reverse]
  have hsp : ∀ w ∈ (d.reverse.takeWhile unicode.IsSpace).reverse,
      unicode.IsSpace w = true := by
    intro w hw
    exact List.mem_takeWhile_imp (List.mem_reverse.1 hw)
  conv_rhs => rw [hsplit]
  rw [fieldsAux_append_spaces _ _ _ hsp]

/-- A value made of white space only has no field. -/
theorem Fields_of_spaces (s : String) (h : ∀ c ∈ s.data, unicode.IsSpace c = true) :
    strings.Fields s = [] := by
  unfold strings.Fields
  rw [fieldsAux_spaces s.data [] h]
  rfl

/-- C17: with `v` the resolved value of the handler's annotation,
`ReqPathRewrite.Process` adds no rule and returns no error when `v` is empty;
appends the one rule (`(.*)`, f) when `v` has exactly one whitespace-separated
field f; appends the one rule (f0, f1) when `v` has exactly two fields f0 and
f1; and in every other case (three or more fields, or a non-empty value made
only of white space) returns an error and leaves the rules as they were. -/
theorem path_rewrite_process (GetValue : String → List (GoMap String) → String)
    (a : ingress.ReqPathRewrite) (r : rules.Rules) (annotations : List (GoMap String)) :
    (GetValue a.name annotations = "" →
      a.Process GetValue r annotations = (r, none)) ∧
    (∀ f, strings.Fields (GetValue a.name annotations) = [f] →
      a.Process GetValue r annotations =
        (r ++ [.ReqPathRewrite { PathMatch := "(.*)", PathFmt := f }], none)) ∧
    (∀ f0 f1, strings.Fields (GetValue a.name annotations) = [f0, f1] →
      a.Process GetValue r annotations =
        (r ++ [.ReqPathRewrite { PathMatch := f0, PathFmt := f1 }], none)) ∧
    (GetValue a.name annotations ≠ "" →
      (3 ≤ (strings.Fields (GetValue a.name annotations)).length ∨
        ∀ c ∈ (GetValue a.name annotations).data, unicode.IsSpace c = true) →
      ∃ err, a.Process GetValue r annotations = (r, some err)) := by
  have hempty : strings.Fields "" = [] := rfl
  refine ⟨?_, ?_, ?_, ?_⟩
  · intro hv
    simp [ingress.ReqPathRewrite.Process, ingress.ReqPathRewrite.GetName, hv]
  · intro f hf
    have hv : GetValue a.name annotations ≠ "" := by
      intro hv
      rw [hv, hempty] at hf
      cases hf
    simp [ingress.ReqPathRewrite.Process, ingress.ReqPathRewrite.GetName, hv,
      Fields_TrimSpace, hf, rules.Rules.Add]
  · intro f0 f1 hf
    have hv : GetValue a.name annotations ≠ "" := by
      intro hv
      rw [hv, hempty] at hf
      cases hf
    simp [ingress.ReqPathRewrite.Process, ingress.ReqPathRewrite.GetName, hv,
      Fields_TrimSpace, hf, rules.Rules.Add]
  · intro hv hcase
    refine ⟨ingress.pathRewriteError (GetValue a.name annotations), ?_⟩
    simp only [ingress.ReqPathRewrite.Process, ingress.ReqPathRewrite.GetName, hv,
      if_false, Fields_TrimSpace]
    rcases hcase with h3 | hsp
    · match hfs : strings.Fields (GetValue a.name annotations), h3 with
      | _ :: _ :: _ :: _, _ => rfl
    · rw [Fields_of_spaces _ hsp]

/-- C17 at the value `/foo /bar`: one rule, from `/foo` to `/bar`, is
appended. -/
theorem path_rewrite_process_witness :
    (⟨"path-rewrite"⟩ : ingress.ReqPathRewrite).Process sampleGetValue
        [.Other "http-request deny"] [] =
      ([.Other "http-request deny",
        .ReqPathRewrite { PathMatch := "/foo", PathFmt := "/bar" }], none) :=
  (path_rewrite_process sampleGetValue ⟨"path-rewrite"⟩ [.Other "http-request deny"]
    []).2.2.1 "/foo" "/bar" (by decide)

/-! ### C18 -/

/-- C18: with `v` the resolved value of the handler's annotation,
`CheckInter.Process` returns the parser's error and leaves the backend exactly
as it was when `v` is non-empty and is not a valid duration; sets the check
interval of the default server to the parsed duration, changing no other field,
and returns no error when `v` is a valid duration; and clears the interval to
nil, changing no other field, and returns no error when `v` is empty. -/
theorem check_inter_process {α β : Type}
    (GetValue : String → List (GoMap String) → String)
    (ParseTime : String → Except String (Option Int))
    (a : service.CheckInter) (backend : models.Backend α β)
    (annotations : List (GoMap String)) :
    (GetValue a.name annotations ≠ "" →
      ∀ err, ParseTime (GetValue a.name annotations) = .error err →
        a.Process GetValue ParseTime backend annotations = (backend, some err)) ∧
    (GetValue a.name annotations ≠ "" →
      ∀ value, ParseTime (GetValue a.name annotations) = .ok value →
        a.Process GetValue ParseTime backend annotations =
          ({ DefaultServer := { Inter := value, rest := backend.DefaultServer.rest }
             rest := backend.rest }, none)) ∧
    (GetValue a.name annotations = "" →
      a.Process GetValue ParseTime backend annotations =
        ({ DefaultServer := { Inter := none, rest := backend.DefaultServer.rest }
           rest := backend.rest }, none)) := by
  refine ⟨?_, ?_, ?_⟩
  · intro hv err herr
    simp [service.CheckInter.Process, service.CheckInter.GetName, hv, herr]
  · intro hv value hval
    simp [service.CheckInter.Process, service.CheckInter.GetName, hv, hval]
  · intro hv
    simp [service.CheckInter.Process, service.CheckInter.GetName, hv]

/-- C18 at the value `5s`: the interval becomes 5000, the other fields stay. -/
theorem check_inter_process_witness :
    (⟨"check-interval"⟩ : service.CheckInter).Process sampleInterValue sampleParseTime
        sampleBackend [] =
      ({ DefaultServer := { Inter := some 5000, rest := "http" }, rest := "default-web-80" },
        none) :=
  (check_inter_process sampleInterValue sampleParseTime ⟨"check-interval"⟩ sampleBackend
    []).2.1 (by decide) (some 5000) rfl

/-! ### C21 -/

theorem mapSet_of_lookup_none {V : Type} (m : GoMap V) (key : String) (val : V)
    (h : mapGet m key = none) : mapSet m key val = m ++ [(key, val)] := by
  induction m with
  | nil => rfl
  | cons e m ih =>
    obtain ⟨k, v⟩ := e
    by_cases hk : k = key
    · simp [mapGet, hk] at h
    · simp only [mapGet, hk, if_false] at h
      simp only [mapSet, hk, if_false, ih h, List.cons_append]

/-- A namespace without ingresses adds nothing to the buffers. -/
theorem processNamespace_NewNamespace (b : Buffers) (name : String) :
    processNamespace b (NewNamespace name) = b := by
  unfold processNamespace
  split
  · rfl
  · rfl

/-- The document does not change when an empty namespace is registered. -/
theorem UpdateHAProxy_new_namespace (getGlobal getDefault : String) (c : HAProxyController)
    (name : String) :
    UpdateHAProxy getGlobal getDefault
        { c with Namespaces := c.Namespaces ++ [(name, NewNamespace name)] } =
      UpdateHAProxy getGlobal getDefault c := by
  simp only [UpdateHAProxy, buildBuffers, List.foldl_append, List.foldl_cons, List.foldl_nil,
    processNamespace_NewNamespace]

/-- C21, as stated, fails: in the initial state a DELETE event for the pod
`web-a`, which is not registered, does not leave the store as it was: the
namespace `default` of the pod gets registered. -/
theorem pod_delete_unknown_registers_namespace :
    ¬ PodDeleteKeepsStore "" "" SyncState.init scenarioPodA := by
  rintro ⟨s1, h, -, -, hc⟩
  have h0 : syncJob "" "" SyncState.init (.POD .Deleted scenarioPodA) =
      .ok { c := { Namespaces := [("default", NewNamespace "default")], ConfigMap := [] }
            hadChanges := false
            generated :=
              [document "" ""
                { Namespaces := [("default", NewNamespace "default")], ConfigMap := [] }] } :=
    rfl
  rw [h0] at h
  have h1 := Except.ok.inj h
  have h2 := hc (by decide)
  rw [← h1] at h2
  exact absurd h2 (by decide)

/-- C21, amended: in every state a pod DELETE event runs `UpdateHAProxy` once,
on the store as the event leaves it, whether or not the pod is registered.
When no rule of a watched namespace of that store has a nil `HTTP`, the event
is processed, generates exactly one document and leaves `hadChanges` as it
was; if `hadChanges` was set, the next COMMAND event generates a document
again. When one has, the step ends in the panic of line 251, in that store,
with nothing generated. The event brings no such rule in. When the pod is not
registered, no pod lookup changes and `UpdateHAProxy` gives what it gives on
the store before the event; the store itself stays as it was if the pod's
namespace is registered, and otherwise gains just the empty namespace that
`GetNamespace` registers under the pod's namespace name. -/
theorem pod_delete_builds_once_keeps_flag (getGlobal getDefault : String) (s : SyncState)
    (p : Pod) (tick : EventType) :
    ∃ c1,
      (HTTPPresent c1 →
        syncJob getGlobal getDefault s (.POD .Deleted p) =
          .ok { c := c1, hadChanges := s.hadChanges,
                generated := s.generated ++ [document getGlobal getDefault c1] } ∧
        (s.hadChanges = true →
          syncJob getGlobal getDefault
              { c := c1, hadChanges := s.hadChanges,
                generated := s.generated ++ [document getGlobal getDefault c1] }
              (.COMMAND tick) =
            .ok { c := c1, hadChanges := false,
                  generated := s.generated ++ [document getGlobal getDefault c1] ++
                    [document getGlobal getDefault c1] })) ∧
      (¬ HTTPPresent c1 →
        syncJob getGlobal getDefault s (.POD .Deleted p) =
          .error { c := c1, hadChanges := s.hadChanges, generated := s.generated }) ∧
      (HTTPPresent s.c → HTTPPresent c1) ∧
      (getPod s.c p.Namespace p.Name = none →
        (∀ n k, getPod c1 n k = getPod s.c n k) ∧
        UpdateHAProxy getGlobal getDefault c1 = UpdateHAProxy getGlobal getDefault s.c ∧
        (∀ ns, mapGet s.c.Namespaces p.Namespace = some ns → c1 = s.c) ∧
        (mapGet s.c.Namespaces p.Namespace = none →
          c1 = { s.c with
            Namespaces := s.c.Namespaces ++ [(p.Namespace, NewNamespace p.Namespace)] })) := by
  have htick : ∀ c1, HTTPPresent c1 → s.hadChanges = true →
      syncJob getGlobal getDefault
          { c := c1, hadChanges := s.hadChanges,
            generated := s.generated ++ [document getGlobal getDefault c1] }
          (.COMMAND tick) =
        .ok { c := c1, hadChanges := false,
              generated := s.generated ++ [document getGlobal getDefault c1] ++
                [document getGlobal getDefault c1] } := by
    intro c1 hpres hd
    simp only [syncJob, hd, if_true, UpdateHAProxy_of_present _ _ c1 hpres]
  cases hold : mapGet (GetNamespace s.c p.Namespace).2.Pods p.Name with
  | some old =>
    refine ⟨putNamespace (GetNamespace s.c p.Namespace).1 p.Namespace
      { (GetNamespace s.c p.Namespace).2 with
        Pods := mapDelete (GetNamespace s.c p.Namespace).2.Pods p.Name },
      fun hpres => ⟨?_, htick _ hpres⟩, ?_, HTTPPresent_setPod s.c p.Namespace _, ?_⟩
    · simp only [syncJob, hold, UpdateHAProxy_of_present _ _ _ hpres]
    · intro habs
      simp only [syncJob, hold, UpdateHAProxy_of_absent _ _ _ habs]
    · intro hnone
      rw [GetNamespace_pods, hnone] at hold
      cases hold
  | none =>
    refine ⟨(GetNamespace s.c p.Namespace).1,
      fun hpres => ⟨?_, htick _ hpres⟩, ?_,
      fun hpres => (HTTPPresent_GetNamespace s.c p.Namespace hpres).1, ?_⟩
    · simp only [syncJob, hold, UpdateHAProxy_of_present _ _ _ hpres]
    · intro habs
      simp only [syncJob, hold, UpdateHAProxy_of_absent _ _ _ habs]
    intro _
    have hreg : ∀ ns, mapGet s.c.Namespaces p.Namespace = some ns →
        (GetNamespace s.c p.Namespace).1 = s.c := by
      intro ns hns
      rw [GetNamespace_of_lookup s.c p.Namespace ns hns]
    have hnew : mapGet s.c.Namespaces p.Namespace = none →
        (GetNamespace s.c p.Namespace).1 =
          { s.c with
            Namespaces := s.c.Namespaces ++ [(p.Namespace, NewNamespace p.Namespace)] } := by
      intro hns
      simp only [GetNamespace, hns, mapSet_of_lookup_none _ _ _ hns]
    refine ⟨fun n k => getPod_GetNamespace s.c p.Namespace n k, ?_, hreg, hnew⟩
    cases hns : mapGet s.c.Namespaces p.Namespace with
    | some ns => rw [hreg ns hns]
    | none =>
      rw [hnew hns]
      exact UpdateHAProxy_new_namespace getGlobal getDefault s.c p.Namespace

/-- C21 at the store of scenario 1 with a change pending: the DELETE of the
pod `web-b` generates a document and leaves `hadChanges` set, and the tick that
follows generates the document again and clears the flag. -/
theorem pod_delete_builds_once_keeps_flag_witness :
    ∃ c1,
      syncJob "" "" { c := storeScenario, hadChanges := true, generated := [] }
          (.POD .Deleted scenarioPodB) =
        .ok { c := c1, hadChanges := true, generated := [document "" "" c1] } ∧
      runJobs "" "" { c := storeScenario, hadChanges := true, generated := [] }
          [.POD .Deleted scenarioPodB, .COMMAND .Added] =
        .ok { c := c1, hadChanges := false,
              generated := [document "" "" c1, document "" "" c1] } := by
  obtain ⟨c1, hok, -, hkeep, -⟩ :=
    pod_delete_builds_once_keeps_flag "" ""
      { c := storeScenario, hadChanges := true, generated := [] } scenarioPodB .Added
  obtain ⟨h1, h2⟩ := hok (hkeep ((buildBuffers_panicked_iff storeScenario).1 (by decide)))
  refine ⟨c1, h1, ?_⟩
  simp only [runJobs, h1]
  rw [h2 rfl]
  rfl

end KubernetesIngress
